import Mathlib

/-!
# quarks: loader and stack machine of `asm.cpp`

A shallow embedding of `src/asm.cpp`: the instruction table, `custom_stack`,
`read_value`, `read_program` and `execute_program`, followed by theorems about them.

Conventions of the embedding.

* `int32_t` values are integers; arithmetic results are brought back into
  `[-2^31, 2^31)` by `wrap32` (two's-complement wrap-around of the machine
  arithmetic the expressions compile to).
* `size_t` values are naturals below `2^64`; conversions and `++`/`-` wrap modulo `2^64`.
* A `custom_stack` is the list of its elements in `vector` order: the bottom of the
  stack is the head of the list and `back()` is the last element.
* C++ leaves the order in which the two operands of `stack.pop() - stack.pop()` (and of
  the other binary operators) are evaluated unspecified; the order is a parameter,
  `EvalOrder`, of the embedding.
* Operations for which the C++ standard defines no behaviour and which the code does not
  guard (`back()`/`pop_back()` on an empty vector, iterators outside the vector) end in the
  outcome `undefined`; thrown exceptions end in the outcome `fault`.
* `std::istream` is modelled by the remaining characters and the three state bits, with
  formatted extraction as the standard describes it for the classic locale.
-/

namespace Quarks

/-! ## Instruction table -/

/-- The `instruction` enumeration. -/
inductive instruction
  | READ | WRITE | DUP | MUL | ADD | SUB | GT | LT | EQ | JMPZ | PUSH | POP | ROT
  deriving DecidableEq, Repr

/-- The array `instruction_name`, indexed by the enumeration. -/
def instruction_name : instruction → String
  | .READ => "READ"
  | .WRITE => "WRITE"
  | .DUP => "DUP"
  | .MUL => "MUL"
  | .ADD => "ADD"
  | .SUB => "SUB"
  | .GT => "GT"
  | .LT => "LT"
  | .EQ => "EQ"
  | .JMPZ => "JMPZ"
  | .PUSH => "PUSH"
  | .POP => "POP"
  | .ROT => "ROT"

/-- The thirteen enumerators in declaration order. -/
def all_instructions : List instruction :=
  [.READ, .WRITE, .DUP, .MUL, .ADD, .SUB, .GT, .LT, .EQ, .JMPZ, .PUSH, .POP, .ROT]

/-- The map `instructions`: its entries are the pairs `(instruction_name[i], i)`;
`instructions.at` is a lookup by key, `none` standing for `out_of_range`. -/
def instructions_at (name : String) : Option instruction :=
  all_instructions.find? (fun i => instruction_name i == name)

/-- The set `value_instructions = {PUSH, POP, ROT}` as a membership test. -/
def value_instructions (i : instruction) : Bool :=
  match i with
  | .PUSH | .POP | .ROT => true
  | _ => false

/-- The struct `command`. -/
structure command where
  line_number : Nat
  instruction : instruction
  value : Option Int
  deriving DecidableEq, Repr

/-! ## Machine integers -/

/-- Number of values of `size_t` (a 64-bit unsigned type). -/
def SIZE_MOD : Nat := 2 ^ 64

/-- Reduction of an integer to the `int32_t` value with the same low 32 bits. -/
def wrap32 (v : Int) : Int := (v + 2 ^ 31) % 2 ^ 32 - 2 ^ 31

/-- Conversion of an `int` to `size_t` (value modulo `2^64`). -/
def to_size_t (v : Int) : Nat := (v % (SIZE_MOD : Int)).toNat

/-- Conversion of a `bool` to an integer. -/
def bool_to_int (b : Bool) : Int := if b then 1 else 0

/-! ## Exceptions -/

/-- The exceptions the program throws. -/
inductive Exception
  | runtime_error (what : String)
  | overflow_error (what : String)
  | bad_optional_access
  deriving DecidableEq, Repr

/-! ## Input streams -/

/-- An input stream: the characters not yet read and the state bits of `rdstate()`. -/
structure IStream where
  buf : List Char
  eofbit : Bool
  failbit : Bool
  badbit : Bool
  deriving DecidableEq, Repr

/-- A fresh stream over a text, in state `goodbit`. -/
def IStream.ofChars (cs : List Char) : IStream :=
  { buf := cs, eofbit := false, failbit := false, badbit := false }

/-- The test `rdstate() == ios_base::goodbit`. -/
def IStream.good (s : IStream) : Bool := !s.eofbit && !s.failbit && !s.badbit

/-- The member `fail()`: `failbit` or `badbit` is set. -/
def IStream.fail (s : IStream) : Bool := s.failbit || s.badbit

/-- The test `rdstate() == ios_base::eofbit`. -/
def IStream.only_eof (s : IStream) : Bool := s.eofbit && !s.failbit && !s.badbit

/-- Whitespace of the classic locale. -/
def isspace (c : Char) : Bool :=
  c = ' ' || c = Char.ofNat 9 || c = Char.ofNat 10 || c = Char.ofNat 11 ||
    c = Char.ofNat 12 || c = Char.ofNat 13

/-- A decimal digit. -/
def isdigit (c : Char) : Bool := decide ('0' ≤ c) && decide (c ≤ '9')

/-- Value of a sequence of decimal digits, most significant first. -/
def decimal_value (ds : List Char) : Nat :=
  ds.foldl (fun acc c => 10 * acc + (c.toNat - '0'.toNat)) 0

/-- The sentry of a formatted input function (with `skipws` set): a stream that is not
good gets `failbit`; otherwise leading whitespace is skipped, and reaching the end of
the stream while skipping sets `eofbit` and `failbit`. Returns whether input may proceed. -/
def sentry (s : IStream) : Bool × IStream :=
  if s.good then
    match s.buf.dropWhile isspace with
    | [] => (false, { s with buf := [], eofbit := true, failbit := true })
    | c :: rest => (true, { s with buf := c :: rest })
  else
    (false, { s with failbit := true })

/-- The field accumulated by `num_get` for a decimal conversion: an optional sign
followed by digits. Returns whether a minus sign was read, the digits, and the rest. -/
def num_field (cs : List Char) : Bool × List Char × List Char :=
  let signed : Bool × List Char :=
    match cs with
    | '-' :: t => (true, t)
    | '+' :: t => (false, t)
    | _ => (false, cs)
  (signed.1, signed.2.takeWhile isdigit, signed.2.dropWhile isdigit)

/-- The extraction `input >> n` for an `unsigned long` (`size_t`) variable holding `old`.
When the sentry fails the variable is left as it was. Otherwise the field is converted:
no digits stores 0 and sets `failbit`; a value that does not fit stores the maximum and
sets `failbit`; a minus sign negates modulo `2^64`. Running into the end of the stream
sets `eofbit`. -/
def extract_size_t (s : IStream) (old : Nat) : Nat × IStream :=
  match sentry s with
  | (false, s1) => (old, s1)
  | (true, s1) =>
    match num_field s1.buf with
    | (neg, ds, rest) =>
      let eof := s1.eofbit || rest.isEmpty
      if ds.isEmpty then
        (0, { s1 with buf := rest, eofbit := eof, failbit := true })
      else if SIZE_MOD ≤ decimal_value ds then
        (SIZE_MOD - 1, { s1 with buf := rest, eofbit := eof, failbit := true })
      else
        ((if neg then (SIZE_MOD - decimal_value ds) % SIZE_MOD else decimal_value ds),
          { s1 with buf := rest, eofbit := eof })

/-- The extraction `input >> value` for an `int32_t` variable. `none` means the variable
was not assigned (the sentry failed). No digits stores 0 and sets `failbit`; a value
outside the `int` range stores the nearest bound and sets `failbit`. -/
def extract_int32 (s : IStream) : Option Int × IStream :=
  match sentry s with
  | (false, s1) => (none, s1)
  | (true, s1) =>
    match num_field s1.buf with
    | (neg, ds, rest) =>
      let eof := s1.eofbit || rest.isEmpty
      let v : Int := if neg then - (decimal_value ds : Int) else (decimal_value ds : Int)
      if ds.isEmpty then
        (some 0, { s1 with buf := rest, eofbit := eof, failbit := true })
      else if v < -(2 ^ 31) then
        (some (-(2 ^ 31)), { s1 with buf := rest, eofbit := eof, failbit := true })
      else if 2 ^ 31 - 1 < v then
        (some (2 ^ 31 - 1), { s1 with buf := rest, eofbit := eof, failbit := true })
      else
        (some v, { s1 with buf := rest, eofbit := eof })

/-- The extraction `input >> str` for a `string` variable holding `old`. When the sentry
fails the variable is left as it was; otherwise it receives the characters up to the next
whitespace or the end of the stream, and running into the end sets `eofbit`. -/
def extract_string (s : IStream) (old : List Char) : List Char × IStream :=
  match sentry s with
  | (false, s1) => (old, s1)
  | (true, s1) =>
    let tok := s1.buf.takeWhile (fun c => !isspace c)
    let rest := s1.buf.dropWhile (fun c => !isspace c)
    (tok, { s1 with buf := rest, eofbit := s1.eofbit || rest.isEmpty,
                    failbit := s1.failbit || tok.isEmpty })

/-- The function `read_value`: extract an `int32_t`, throw `overflow_error` when the
stream has failed. -/
def read_value (input : IStream) : Except Exception Int × IStream :=
  match extract_int32 input with
  | (v, s1) =>
    if s1.fail then (Except.error (Exception.overflow_error "Value too high"), s1)
    else (Except.ok (v.getD 0), s1)

/-! ## Program loader -/

/-- How `read_program` ends: it returns after writing `program` through the output
iterator, or an exception leaves it. `unfinished` is the value of the bounded loop below
when its bound is used up. -/
inductive LoadResult
  | loaded (program : List command)
  | thrown (e : Exception)
  | unfinished
  deriving DecidableEq, Repr

/-- The `while` loop of `read_program` and the check after it, for at most `fuel`
iterations. `line_number` is the running counter and `out` what has been written through
`it`. The declaration `command c;` leaves `c.line_number` uninitialised: `uninit k` is the
value the field holds before the extraction in the iteration with counter `k`. -/
def read_loop (uninit : Nat → Nat) :
    Nat → IStream → Nat → List command → LoadResult
  | fuel, input, line_number, out =>
    if input.good then
      match fuel with
      | 0 => .unfinished
      | fuel1 + 1 =>
        match extract_size_t input (uninit line_number) with
        | (c_line_number, in1) =>
          if c_line_number ≠ line_number then
            .thrown (.runtime_error
              ("Wrong line number " ++ toString c_line_number ++ " expected " ++
                toString line_number))
          else
            match extract_string in1 [] with
            | (name, in2) =>
              match instructions_at (String.mk name) with
              | none =>
                .thrown (.runtime_error
                  ("Unknown instruction at line " ++ toString line_number))
              | some instr =>
                if value_instructions instr then
                  match read_value in2 with
                  | (.error e, _) => .thrown e
                  | (.ok v, in3) =>
                    read_loop uninit fuel1 in3 ((line_number + 1) % SIZE_MOD)
                      (out ++ [{ line_number := c_line_number, instruction := instr,
                                 value := some v }])
                else
                  read_loop uninit fuel1 in2 ((line_number + 1) % SIZE_MOD)
                    (out ++ [{ line_number := c_line_number, instruction := instr,
                               value := none }])
    else if input.only_eof then
      .loaded out
    else
      .thrown (.runtime_error ("Error parsing program at line " ++ toString line_number))

/-- The function `read_program` on a stream. Every iteration that does not throw
consumes a character, so one more iteration than there are characters is enough. -/
def read_program (uninit : Nat → Nat) (input : IStream) : LoadResult :=
  read_loop uninit (input.buf.length + 1) input 0 []

/-! ## custom_stack -/

/-- The struct `custom_stack`, a `vector<int32_t>`: bottom first, `back()` last. -/
abbrev custom_stack := List Int

/-- The member `custom_stack::pop`: `back()` followed by `pop_back()`, returning the
value and the shortened stack. Neither call is guarded; on an empty vector no behaviour
is defined, which is `none`. -/
def custom_stack.pop (s : custom_stack) : Option (Int × custom_stack) :=
  match s.getLast? with
  | none => none
  | some value => some (value, s.dropLast)

/-- The algorithm `std::rotate(first, middle, last)` on positions of a vector, for
`first ≤ middle ≤ last ≤ size`: the elements of `[middle, last)` are placed before the
elements of `[first, middle)`, both in their order; the rest is untouched. -/
def rotate (s : custom_stack) (first middle last : Nat) : custom_stack :=
  s.take first ++ ((s.drop middle).take (last - middle) ++ (s.drop first).take (middle - first))
    ++ s.drop last

/-! ## Execution engine -/

/-- Order in which the two operand expressions of a binary operator are evaluated. -/
inductive EvalOrder
  | leftFirst
  | rightFirst
  deriving DecidableEq, Repr

/-- What `execute_program` sends to `cout`: the value of a WRITE, the line printed before
a command in verbose mode, the stack printed after it in verbose mode. -/
inductive OutItem
  | written (value : Int)
  | trace_command (line_num : Nat) (name : String) (value : Option Int)
  | trace_stack (stack : custom_stack)
  deriving DecidableEq, Repr

/-- The characters an `OutItem` stands for on `cout`. -/
def OutItem.render : OutItem → String
  | .written v => toString v ++ "\n"
  | .trace_command n name none => toString n ++ " " ++ name ++ "\n"
  | .trace_command n name (some v) => toString n ++ " " ++ name ++ " " ++ toString v ++ "\n"
  | .trace_stack st => "[" ++ String.join (st.map (fun v => toString v ++ " ")) ++ "]\n"

/-- The variables of `execute_program` together with the two console streams. -/
structure Machine where
  line_num : Nat
  stack : custom_stack
  cin : IStream
  cout : List OutItem
  deriving DecidableEq, Repr

/-- Result of a piece of code: completion with a value, a thrown exception, or an
operation for which no behaviour is defined. -/
inductive Outcome (α : Type)
  | ok (a : α)
  | fault (e : Exception)
  | undefined
  deriving DecidableEq, Repr

/-- Value of `E1 OP E2` for two operand expressions, given the value `a` of the operand
evaluated first and the value `b` of the operand evaluated second: under `leftFirst` the
left operand `E1` is evaluated first, under `rightFirst` the right operand `E2`. -/
def EvalOrder.combine (ord : EvalOrder) (op : Int → Int → Int) (a b : Int) : Int :=
  match ord with
  | .leftFirst => op a b
  | .rightFirst => op b a

/-- The expression `stack.pop() OP stack.pop()` followed by `push_back` of its value.
`a` is the value returned by the call evaluated first and `b` by the call evaluated
second. -/
def binary_op (ord : EvalOrder) (op : Int → Int → Int) (s : custom_stack) :
    Option custom_stack :=
  match custom_stack.pop s with
  | none => none
  | some (a, s1) =>
    match custom_stack.pop s1 with
    | none => none
    | some (b, s2) => some (s2 ++ [ord.combine op a b])

/-- The loop `for (size_t count = ...; count > 0; --count) stack.pop();` of POP. -/
def pop_loop : Nat → custom_stack → Option custom_stack
  | 0, s => some s
  | count + 1, s =>
    match custom_stack.pop s with
    | none => none
    | some (_, s1) => pop_loop count s1

/-- Lifting of a stack computation into the machine. -/
def with_stack (m : Machine) (r : Option custom_stack) : Outcome Machine :=
  match r with
  | none => .undefined
  | some s => .ok { m with stack := s }

/-- The `switch (line.instruction)` of `execute_program`. The `default:` branch is not
reachable for the thirteen enumerators. `line.value.value()` throws
`bad_optional_access` on a command without operand; in ROT it is taken to be evaluated
before the iterator arithmetic. ROT is defined when `stack.end() - k`, `stack.end() - 1`
and `stack.end()` delimit two ranges inside the vector, that is for `1 <= k <= size`. -/
def exec_command (ord : EvalOrder) (line : command) (m : Machine) : Outcome Machine :=
  match line.instruction with
  | .READ =>
    match read_value m.cin with
    | (.error e, _) => .fault e
    | (.ok v, cin1) => .ok { m with stack := m.stack ++ [v], cin := cin1 }
  | .WRITE =>
    match custom_stack.pop m.stack with
    | none => .undefined
    | some (v, s) => .ok { m with stack := s, cout := m.cout ++ [.written v] }
  | .DUP =>
    match m.stack.getLast? with
    | none => .undefined
    | some v => .ok { m with stack := m.stack ++ [v] }
  | .MUL => with_stack m (binary_op ord (fun l r => wrap32 (l * r)) m.stack)
  | .ADD => with_stack m (binary_op ord (fun l r => wrap32 (l + r)) m.stack)
  | .SUB => with_stack m (binary_op ord (fun l r => wrap32 (l - r)) m.stack)
  | .GT => with_stack m (binary_op ord (fun l r => bool_to_int (decide (l > r))) m.stack)
  | .LT => with_stack m (binary_op ord (fun l r => bool_to_int (decide (l < r))) m.stack)
  | .EQ => with_stack m (binary_op ord (fun l r => bool_to_int (decide (l = r))) m.stack)
  | .JMPZ =>
    match custom_stack.pop m.stack with
    | none => .undefined
    | some (a, s1) =>
      let address := to_size_t a
      match custom_stack.pop s1 with
      | none => .undefined
      | some (c, s2) =>
        if c = 0 then
          .ok { m with stack := s2, line_num := (address + SIZE_MOD - 1) % SIZE_MOD }
        else
          .ok { m with stack := s2 }
  | .PUSH =>
    match line.value with
    | none => .fault .bad_optional_access
    | some v => .ok { m with stack := m.stack ++ [v] }
  | .POP =>
    match line.value with
    | none => .fault .bad_optional_access
    | some v => with_stack m (pop_loop (to_size_t v) m.stack)
  | .ROT =>
    match line.value with
    | none => .fault .bad_optional_access
    | some v =>
      if 1 ≤ v ∧ v ≤ (m.stack.length : Int) then
        .ok { m with stack :=
                rotate m.stack (m.stack.length - v.toNat) (m.stack.length - 1) m.stack.length }
      else
        .undefined

/-- One iteration of the `for` loop of `execute_program`, entered with
`line_num < program.size()`: the verbose line, the command, the verbose stack, `++line_num`. -/
def loop_body (ord : EvalOrder) (verbose : Bool) (line : command) (m : Machine) :
    Outcome Machine :=
  let m1 : Machine :=
    if verbose then
      { m with cout := m.cout ++
          [.trace_command m.line_num (instruction_name line.instruction) line.value] }
    else m
  match exec_command ord line m1 with
  | .fault e => .fault e
  | .undefined => .undefined
  | .ok m2 =>
    let m3 : Machine :=
      if verbose then { m2 with cout := m2.cout ++ [.trace_stack m2.stack] } else m2
    .ok { m3 with line_num := (m3.line_num + 1) % SIZE_MOD }

/-- How a run of `execute_program` ends, with the machine at that point: the loop test
failed (`finished`), an exception left the function (`fault`), an operation without
defined behaviour was reached (`undefined`), or the allotted number of commands was
executed and the loop is still running (`running`). -/
inductive Result
  | finished (m : Machine)
  | fault (e : Exception) (m : Machine)
  | undefined (m : Machine)
  | running (m : Machine)
  deriving DecidableEq, Repr

/-- The `for` loop of `execute_program` from a given machine, executing at most `fuel`
commands: the test `line_num < program.size()` and, when it holds, the body. -/
def run (ord : EvalOrder) (verbose : Bool) (program : List command) :
    Nat → Machine → Result
  | 0, m =>
    match program[m.line_num]? with
    | none => .finished m
    | some _ => .running m
  | fuel + 1, m =>
    match program[m.line_num]? with
    | none => .finished m
    | some line =>
      match loop_body ord verbose line m with
      | .fault e => .fault e m
      | .undefined => .undefined m
      | .ok m1 => run ord verbose program fuel m1

/-- The machine `execute_program` starts from. -/
def initial_machine (cin : IStream) : Machine :=
  { line_num := 0, stack := [], cin := cin, cout := [] }

/-- The function `execute_program`: the loop started with `line_num = 0` and an empty
stack, reading from `cin`. -/
def execute_program (ord : EvalOrder) (program : List command) (verbose : Bool)
    (fuel : Nat) (cin : IStream) : Result :=
  run ord verbose program fuel (initial_machine cin)

/-- The example program `0 PUSH 10 / 1 PUSH 3 / 2 SUB / 3 WRITE`. -/
def sub_program : List command :=
  [⟨0, .PUSH, some 10⟩, ⟨1, .PUSH, some 3⟩, ⟨2, .SUB, none⟩, ⟨3, .WRITE, none⟩]

/-- The programs PUSH a, PUSH b, OP for a binary instruction OP. -/
def push_push_op (op : instruction) (a b : Int) : List command :=
  [⟨0, .PUSH, some a⟩, ⟨1, .PUSH, some b⟩, ⟨2, op, none⟩]

/-- The switch of `execute_program` run `times` times in a row on the same command. -/
def iterate_command (ord : EvalOrder) (line : command) : Nat → Machine → Outcome Machine
  | 0, m => .ok m
  | times + 1, m =>
    match exec_command ord line m with
    | .ok m1 => iterate_command ord line times m1
    | .fault e => .fault e
    | .undefined => .undefined

/-- Whether an item of `cout` is the value of a WRITE (and not a verbose line). -/
def OutItem.is_written : OutItem → Bool
  | .written _ => true
  | .trace_command _ _ _ => false
  | .trace_stack _ => false

/-- A machine with the verbose lines removed from what it has sent to `cout`. -/
def Machine.strip (m : Machine) : Machine :=
  { m with cout := m.cout.filter OutItem.is_written }

/-- An outcome with the verbose lines removed from the machine it carries. -/
def strip_outcome : Outcome Machine → Outcome Machine
  | .ok m => .ok m.strip
  | .fault e => .fault e
  | .undefined => .undefined

/-- A result with the verbose lines removed from the machine it carries. -/
def Result.strip : Result → Result
  | .finished m => .finished m.strip
  | .fault e m => .fault e m.strip
  | .undefined m => .undefined m.strip
  | .running m => .running m.strip

/-- The indices of the commands a run executes, in the order of execution: the values of
`line_num` with which the loop body is entered, for at most `fuel` commands. -/
def executed_lines (ord : EvalOrder) (verbose : Bool) (program : List command) :
    Nat → Machine → List Nat
  | 0, _ => []
  | fuel + 1, m =>
    match program[m.line_num]? with
    | none => []
    | some line =>
      m.line_num ::
        (match loop_body ord verbose line m with
         | .ok m1 => executed_lines ord verbose program fuel m1
         | .fault _ => []
         | .undefined => [])

/-- The program PUSH 0, PUSH 0, JMPZ. -/
def jmpz_loop_program : List command :=
  [⟨0, .PUSH, some 0⟩, ⟨1, .PUSH, some 0⟩, ⟨2, .JMPZ, none⟩]

/-! ## Program text -/

/-- The stream left by an extraction that stopped in front of `rest`, or ran into the end
of the stream when `rest` is empty, without failing. -/
def stream_at (rest : List Char) : IStream :=
  { buf := rest, eofbit := rest.isEmpty, failbit := false, badbit := false }

/-- Every character is whitespace. -/
def all_space (cs : List Char) : Bool := cs.all isspace

/-- Every character is a decimal digit. -/
def all_digits (cs : List Char) : Bool := cs.all isdigit

/-- No character is whitespace. -/
def no_space (cs : List Char) : Bool := cs.all (fun c => !isspace c)

/-- The text is empty or begins with whitespace: a token that ends in front of it is
delimited. -/
def delimited (rest : List Char) : Bool :=
  match rest with
  | [] => true
  | c :: _ => isspace c

/-- The text is empty or begins with a character that is not a digit. -/
def ends_number (rest : List Char) : Bool :=
  match rest with
  | [] => true
  | c :: _ => !isdigit c

/-- An operand as written in a program text: the whitespace in front of it, an optional
minus sign and the digits. -/
structure Operand where
  gap : List Char
  minus : Bool
  digits : List Char
  deriving DecidableEq, Repr

/-- The sign and digits of an operand. -/
def Operand.token (o : Operand) : List Char :=
  (if o.minus then ['-'] else []) ++ o.digits

/-- The integer an operand denotes. -/
def Operand.value (o : Operand) : Int :=
  if o.minus then -(decimal_value o.digits : Int) else (decimal_value o.digits : Int)

/-- A well-formed operand: whitespace, then a decimal integer of the `int32_t` range. -/
def Operand.well_formed (o : Operand) : Bool :=
  !o.gap.isEmpty && all_space o.gap && !o.digits.isEmpty && all_digits o.digits &&
    decide (-(2 ^ 31) ≤ o.value) && decide (o.value ≤ 2 ^ 31 - 1)

/-- A record of a program text, token by token: the whitespace in front of it, the digits
of the line number, the whitespace after them, the instruction, and the operand. -/
structure Line where
  lead : List Char
  number : List Char
  gap : List Char
  instr : instruction
  operand : Option Operand
  deriving DecidableEq, Repr

/-- The characters of the operand part of a record. -/
def operand_text : Option Operand → List Char
  | none => []
  | some o => o.gap ++ o.token

/-- The characters of a record. -/
def Line.text (l : Line) : List Char :=
  l.lead ++ (l.number ++ (l.gap ++ ((instruction_name l.instr).toList ++
    operand_text l.operand)))

/-- A well-formed record for the line counter `k`: optional whitespace, a decimal number
equal to `k`, whitespace, one of the instruction names, and a well-formed operand exactly
when the instruction is PUSH, POP or ROT. -/
def Line.well_formed (k : Nat) (l : Line) : Bool :=
  all_space l.lead && !l.number.isEmpty && all_digits l.number &&
    decide (decimal_value l.number = k) && !l.gap.isEmpty && all_space l.gap &&
    (match l.operand with
     | none => !value_instructions l.instr
     | some o => value_instructions l.instr && o.well_formed)

/-- The command a record denotes. -/
def Line.command (l : Line) : command :=
  { line_number := decimal_value l.number, instruction := l.instr,
    value := l.operand.map Operand.value }

/-- The characters of a sequence of records. -/
def lines_text : List Line → List Char
  | [] => []
  | l :: ls => l.text ++ lines_text ls

/-- Every record after the first begins with whitespace. -/
def separated : List Line → Bool
  | [] => true
  | _ :: ls => ls.all (fun l => !l.lead.isEmpty)

/-- The records are well-formed for the counters `k`, `k + 1`, ... -/
def numbered (k : Nat) : List Line → Bool
  | [] => true
  | l :: ls => l.well_formed k && numbered (k + 1) ls

/-- The beginning of a record for the counter `k`: optional whitespace `lead` and a
decimal number `number` equal to `k`. -/
def line_start (k : Nat) (lead number : List Char) : Bool :=
  all_space lead && !number.isEmpty && all_digits number && decide (decimal_value number = k)

/-- A record that follows `lines` in a text is set apart from them: it is the first
record of the text or it begins with whitespace. -/
def follows (lines : List Line) (lead : List Char) : Bool :=
  lines.isEmpty || !lead.isEmpty

/-- The records of the text `0 PUSH 10`, newline, `1 SUB`. -/
def sample_lines : List Line :=
  [⟨[], "0".toList, " ".toList, .PUSH, some ⟨" ".toList, false, "10".toList⟩⟩,
   ⟨"\n".toList, "1".toList, " ".toList, .SUB, none⟩]

/-- The record of the text `0 READ`. -/
def read_line : List Line :=
  [⟨[], "0".toList, " ".toList, .READ, none⟩]

/-- The text begins with a decimal integer: an optional sign and then a digit. -/
def starts_number (r : List Char) : Bool :=
  match r with
  | [] => false
  | c :: t =>
    if c = '-' ∨ c = '+' then
      (match t with
       | [] => false
       | d :: _ => isdigit d)
    else isdigit c

/-- An operand that is written as a decimal integer, after whitespace, but whose value
is outside the `int32_t` range. -/
def Operand.out_of_range (o : Operand) : Bool :=
  !o.gap.isEmpty && all_space o.gap && !o.digits.isEmpty && all_digits o.digits &&
    (decide (o.value < -(2 ^ 31)) || decide (2 ^ 31 - 1 < o.value))

/-! ## Writing a program back as text -/

/-- A command written as its line number, its name `instruction_name[instruction]` and,
when present, its operand, in decimal and separated by single blanks. -/
def command_text (c : command) : List Char :=
  (toString c.line_number).toList ++ (" ".toList ++ ((instruction_name c.instruction).toList ++
    (match c.value with
     | none => []
     | some v => " ".toList ++ (toString v).toList)))

/-- The commands after the first, each on a new line. -/
def following_text : List command → List Char
  | [] => []
  | c :: cs => "\n".toList ++ (command_text c ++ following_text cs)

/-- A program written one command per line, the lines separated by line feeds. -/
def program_text : List command → List Char
  | [] => []
  | c :: cs => command_text c ++ following_text cs

/-- The operand of a written command, token by token. -/
def operand_of (v : Int) : Operand :=
  { gap := " ".toList, minus := decide (v < 0), digits := (toString v.natAbs).toList }

/-- The record of a written command, token by token, after the whitespace `lead`. -/
def line_of (lead : List Char) (c : command) : Line :=
  { lead := lead, number := (toString c.line_number).toList, gap := " ".toList,
    instr := c.instruction, operand := c.value.map operand_of }

/-- The records of a written program. -/
def lines_of : List command → List Line
  | [] => []
  | c :: cs => line_of [] c :: cs.map (line_of "\n".toList)

/-- The value the extraction `input >> c.line_number` stores when the text in front of it
is `r` and `r` begins with a character that is not whitespace: 0 when `r` does not begin
with an optionally signed decimal number, the largest `size_t` when the number does not
fit, the number otherwise (negated modulo `2^64` after a minus sign). -/
def line_number_read (r : List Char) : Nat :=
  match num_field r with
  | (neg, ds, _) =>
    if ds.isEmpty then 0
    else if SIZE_MOD ≤ decimal_value ds then SIZE_MOD - 1
    else if neg then (SIZE_MOD - decimal_value ds) % SIZE_MOD
    else decimal_value ds

/-- A program written one command per line, every line ended by a line feed. -/
def terminated_text : List command → List Char
  | [] => []
  | c :: cs => command_text c ++ ("\n".toList ++ terminated_text cs)

/-! ## Facts about the stack -/

theorem pop_nil : custom_stack.pop [] = none := by
  simp [custom_stack.pop]

theorem pop_concat (s : custom_stack) (v : Int) :
    custom_stack.pop (s ++ [v]) = some (v, s) := by
  simp [custom_stack.pop]

theorem pop_single (v : Int) : custom_stack.pop [v] = some (v, []) :=
  pop_concat [] v

theorem binary_op_nil (ord : EvalOrder) (op : Int → Int → Int) :
    binary_op ord op [] = none := by
  simp [binary_op, pop_nil]

theorem binary_op_single (ord : EvalOrder) (op : Int → Int → Int) (v : Int) :
    binary_op ord op [v] = none := by
  simp [binary_op, pop_single, pop_nil]

theorem binary_op_two (ord : EvalOrder) (op : Int → Int → Int) (rest : custom_stack)
    (y x : Int) :
    binary_op ord op (rest ++ [y, x]) = some (rest ++ [ord.combine op x y]) := by
  have h : rest ++ [y, x] = (rest ++ [y]) ++ [x] := by simp
  rw [h]
  simp only [binary_op, pop_concat]

/-- A stack with fewer than two values is empty or a single value. -/
theorem short_stack (s : custom_stack) (h : s.length < 2) : s = [] ∨ ∃ v, s = [v] := by
  match s, h with
  | [], _ => exact Or.inl rfl
  | [v], _ => exact Or.inr ⟨v, rfl⟩
  | _ :: _ :: _, h => exact absurd h (by simp)

theorem binary_op_short (ord : EvalOrder) (op : Int → Int → Int) (s : custom_stack)
    (h : s.length < 2) : binary_op ord op s = none := by
  rcases short_stack s h with rfl | ⟨v, rfl⟩
  · exact binary_op_nil ord op
  · exact binary_op_single ord op v

/-! ## Facts about the loop -/

theorem run_finished (ord : EvalOrder) (verbose : Bool) (program : List command)
    (fuel : Nat) (m : Machine) (h : program[m.line_num]? = none) :
    run ord verbose program fuel m = .finished m := by
  cases fuel <;> simp [run, h]

theorem run_step (ord : EvalOrder) (verbose : Bool) (program : List command)
    (fuel : Nat) (m m1 : Machine) (line : command) (h : program[m.line_num]? = some line)
    (hb : loop_body ord verbose line m = .ok m1) :
    run ord verbose program (fuel + 1) m = run ord verbose program fuel m1 := by
  simp [run, h, hb]

theorem run_undefined (ord : EvalOrder) (verbose : Bool) (program : List command)
    (fuel : Nat) (m : Machine) (line : command) (h : program[m.line_num]? = some line)
    (hb : loop_body ord verbose line m = .undefined) :
    run ord verbose program (fuel + 1) m = .undefined m := by
  simp [run, h, hb]

theorem run_fault (ord : EvalOrder) (verbose : Bool) (program : List command)
    (fuel : Nat) (m : Machine) (line : command) (e : Exception)
    (h : program[m.line_num]? = some line)
    (hb : loop_body ord verbose line m = .fault e) :
    run ord verbose program (fuel + 1) m = .fault e m := by
  simp [run, h, hb]

/-- More fuel does not change a run that has ended. -/
theorem run_more_fuel (ord : EvalOrder) (verbose : Bool) (program : List command)
    (fuel extra : Nat) (m : Machine)
    (h : ∀ m1, run ord verbose program fuel m ≠ .running m1) :
    run ord verbose program (fuel + extra) m = run ord verbose program fuel m := by
  induction fuel generalizing m with
  | zero =>
    cases hp : program[m.line_num]? with
    | none => rw [run_finished _ _ _ _ _ hp, run_finished _ _ _ _ _ hp]
    | some line => exact absurd (by simp [run, hp]) (h m)
  | succ n ih =>
    have e : n + 1 + extra = (n + extra) + 1 := by omega
    rw [e]
    cases hp : program[m.line_num]? with
    | none => rw [run_finished _ _ _ _ _ hp, run_finished _ _ _ _ _ hp]
    | some line =>
      cases hb : loop_body ord verbose line m with
      | fault e1 => rw [run_fault _ _ _ _ _ _ _ hp hb, run_fault _ _ _ _ _ _ _ hp hb]
      | undefined => rw [run_undefined _ _ _ _ _ _ hp hb, run_undefined _ _ _ _ _ _ hp hb]
      | ok m1 =>
        rw [run_step _ _ _ _ _ _ _ hp hb, run_step _ _ _ _ _ _ _ hp hb]
        apply ih
        intro m2 h2
        apply h m2
        rw [run_step _ _ _ _ _ _ _ hp hb]
        exact h2

/-! ## C1: SUB -/

/-- C1, as stated, fails: with the operands of `stack.pop() - stack.pop()` evaluated left
to right, SUB on the stack 10, 3 (3 on top) leaves -7, and the program PUSH 10, PUSH 3,
SUB, WRITE writes -7 instead of 7. -/
theorem C1_sub_left_to_right_counterexample :
    exec_command .leftFirst ⟨2, .SUB, none⟩ ⟨2, [10, 3], IStream.ofChars [], []⟩ =
        .ok ⟨2, [-7], IStream.ofChars [], []⟩ ∧
      execute_program .leftFirst sub_program false 4 (IStream.ofChars []) =
        .finished ⟨4, [], IStream.ofChars [], [.written (-7)]⟩ := by
  constructor <;> decide

/-- C1, amended: on a stack with `x` on top and `y` directly below it, SUB removes both
and pushes one value, leaving the rest unchanged. The value is `x - y` (first-popped value
as minuend) when the operands are evaluated left to right and `y - x` when they are
evaluated right to left, in 32-bit arithmetic; the program PUSH 10, PUSH 3, SUB, WRITE
writes -7 in the first case and 7 in the second, for every sufficient bound on the
number of commands. -/
theorem C1_sub_pops_two_pushes_difference (n pc : Nat) (v : Option Int)
    (rest : custom_stack) (x y : Int) (cin : IStream) (cout : List OutItem) (extra : Nat) :
    exec_command .leftFirst ⟨n, .SUB, v⟩ ⟨pc, rest ++ [y, x], cin, cout⟩ =
        .ok ⟨pc, rest ++ [wrap32 (x - y)], cin, cout⟩ ∧
      exec_command .rightFirst ⟨n, .SUB, v⟩ ⟨pc, rest ++ [y, x], cin, cout⟩ =
        .ok ⟨pc, rest ++ [wrap32 (y - x)], cin, cout⟩ ∧
      execute_program .leftFirst sub_program false (4 + extra) cin =
        .finished ⟨4, [], cin, [.written (-7)]⟩ ∧
      execute_program .rightFirst sub_program false (4 + extra) cin =
        .finished ⟨4, [], cin, [.written 7]⟩ := by
  refine ⟨?_, ?_, ?_, ?_⟩
  · simp only [exec_command, binary_op_two, with_stack, EvalOrder.combine]
  · simp only [exec_command, binary_op_two, with_stack, EvalOrder.combine]
  · have h : run .leftFirst false sub_program 4 (initial_machine cin) =
        .finished ⟨4, [], cin, [.written (-7)]⟩ := by rfl
    unfold execute_program
    rw [run_more_fuel _ _ _ _ _ _ (by rw [h]; intro m1 hm; cases hm)]
    exact h
  · have h : run .rightFirst false sub_program 4 (initial_machine cin) =
        .finished ⟨4, [], cin, [.written 7]⟩ := by rfl
    unfold execute_program
    rw [run_more_fuel _ _ _ _ _ _ (by rw [h]; intro m1 hm; cases hm)]
    exact h

/-! ## C2: GT, LT, EQ -/

theorem bool_to_int_cases (b : Bool) : bool_to_int b = 0 ∨ bool_to_int b = 1 := by
  cases b <;> simp [bool_to_int]

/-- C2, as stated, fails: with the operands of `stack.pop() > stack.pop()` evaluated left
to right, GT on the stack 5, 3 (x = 3 on top, y = 5 below, so y > x) pushes 0, and LT on
the same stack pushes 1. -/
theorem C2_gt_lt_left_to_right_counterexample :
    exec_command .leftFirst ⟨0, .GT, none⟩ ⟨0, [5, 3], IStream.ofChars [], []⟩ =
        .ok ⟨0, [0], IStream.ofChars [], []⟩ ∧
      exec_command .leftFirst ⟨0, .LT, none⟩ ⟨0, [5, 3], IStream.ofChars [], []⟩ =
        .ok ⟨0, [1], IStream.ofChars [], []⟩ := by
  constructor <;> decide

/-- C2, amended: on a stack with `x` on top and `y` directly below it, GT, LT and EQ remove
both and push one value that is 0 or 1, leaving the rest unchanged. With the operands
evaluated left to right GT pushes 1 exactly when `x > y` and LT exactly when `x < y`; with
the operands evaluated right to left GT pushes 1 exactly when `y > x` and LT exactly when
`y < x`; EQ pushes 1 exactly when `y = x` under both orders. -/
theorem C2_comparisons_pop_two_push_flag (ord : EvalOrder) (n pc : Nat) (v : Option Int)
    (rest : custom_stack) (x y : Int) (cin : IStream) (cout : List OutItem) :
    exec_command .leftFirst ⟨n, .GT, v⟩ ⟨pc, rest ++ [y, x], cin, cout⟩ =
        .ok ⟨pc, rest ++ [bool_to_int (decide (x > y))], cin, cout⟩ ∧
      exec_command .leftFirst ⟨n, .LT, v⟩ ⟨pc, rest ++ [y, x], cin, cout⟩ =
        .ok ⟨pc, rest ++ [bool_to_int (decide (x < y))], cin, cout⟩ ∧
      exec_command .rightFirst ⟨n, .GT, v⟩ ⟨pc, rest ++ [y, x], cin, cout⟩ =
        .ok ⟨pc, rest ++ [bool_to_int (decide (y > x))], cin, cout⟩ ∧
      exec_command .rightFirst ⟨n, .LT, v⟩ ⟨pc, rest ++ [y, x], cin, cout⟩ =
        .ok ⟨pc, rest ++ [bool_to_int (decide (y < x))], cin, cout⟩ ∧
      exec_command ord ⟨n, .EQ, v⟩ ⟨pc, rest ++ [y, x], cin, cout⟩ =
        .ok ⟨pc, rest ++ [bool_to_int (decide (y = x))], cin, cout⟩ ∧
      (∀ b : Bool, bool_to_int b = 0 ∨ bool_to_int b = 1) ∧
      (∀ b : Bool, bool_to_int b = 1 ↔ b = true) := by
  refine ⟨?_, ?_, ?_, ?_, ?_, bool_to_int_cases, ?_⟩
  · simp only [exec_command, binary_op_two, with_stack, EvalOrder.combine]
  · simp only [exec_command, binary_op_two, with_stack, EvalOrder.combine]
  · simp only [exec_command, binary_op_two, with_stack, EvalOrder.combine]
  · simp only [exec_command, binary_op_two, with_stack, EvalOrder.combine]
  · have e : decide (x = y) = decide (y = x) := by
      by_cases h : x = y
      · simp [h]
      · have h2 : ¬ y = x := fun h3 => h h3.symm
        simp [h, h2]
    cases ord <;>
      simp only [exec_command, binary_op_two, with_stack, EvalOrder.combine, e]
  · intro b
    cases b <;> simp [bool_to_int]

/-! ## C3: ROT -/

theorem rotate_window (below window : custom_stack) (top : Int) :
    rotate (below ++ window ++ [top])
        ((below ++ window ++ [top]).length - (window.length + 1))
        ((below ++ window ++ [top]).length - 1) (below ++ window ++ [top]).length =
      below ++ [top] ++ window := by
  have h1 : (below ++ window ++ [top]).length - (window.length + 1) = below.length := by
    simp only [List.length_append, List.length_singleton]; omega
  have h2 : (below ++ window ++ [top]).length - 1 = (below ++ window).length := by
    simp only [List.length_append, List.length_singleton]; omega
  rw [h1, h2]
  unfold rotate
  have e1 : (below ++ window ++ [top]).take below.length = below := by
    rw [List.append_assoc, List.take_left']
    rfl
  have e2 : (below ++ window ++ [top]).drop (below ++ window).length = [top] := by
    rw [List.drop_left']
    rfl
  have e3 : (below ++ window ++ [top]).drop below.length = window ++ [top] := by
    rw [List.append_assoc, List.drop_left']
    rfl
  have e4 : (below ++ window ++ [top]).drop (below ++ window ++ [top]).length = [] := by
    simp
  have e5 : (below ++ window ++ [top]).length - (below ++ window).length = 1 := by
    simp only [List.length_append, List.length_singleton]; omega
  have e6 : (below ++ window).length - below.length = window.length := by
    simp only [List.length_append]; omega
  rw [e1, e2, e3, e4, e5, e6, List.take_left']
  · simp
  · rfl

theorem exec_rot_window (ord : EvalOrder) (n pc : Nat) (below window : custom_stack)
    (top : Int) (cin : IStream) (cout : List OutItem) :
    exec_command ord ⟨n, .ROT, some ((window.length : Int) + 1)⟩
        ⟨pc, below ++ window ++ [top], cin, cout⟩ =
      .ok ⟨pc, below ++ [top] ++ window, cin, cout⟩ := by
  have hk : (((window.length : Int) + 1).toNat) = window.length + 1 := by omega
  have hg : 1 ≤ (window.length : Int) + 1 ∧
      (window.length : Int) + 1 ≤ ((below ++ window ++ [top]).length : Int) := by
    simp only [List.length_append, List.length_singleton]
    constructor <;> push_cast <;> omega
  simp only [exec_command, if_pos hg, hk, rotate_window]

/-- C3, as stated, fails: ROT 3 on the stack 1, 2, 3 (3 on top) leaves 3, 1, 2, so the new
top is 2, the value that was directly below the top, and not 1, the bottom of the
window. -/
theorem C3_rot_counterexample :
    exec_command .leftFirst ⟨0, .ROT, some 3⟩ ⟨0, [1, 2, 3], IStream.ofChars [], []⟩ =
      .ok ⟨0, [3, 1, 2], IStream.ofChars [], []⟩ := by
  decide

/-- C3, amended: for every k with 1 <= k <= depth, write the stack as the values below the
top k, then the k - 1 lower values of the window, then the top. ROT k leaves the values
below the window unchanged, moves the former top to the bottom of the window, and moves
each of the other k - 1 window values up by one position in their order. For k >= 2 the
new top is the value that was directly below the top; for k = 1 the stack is unchanged. -/
theorem C3_rot_moves_top_to_window_bottom (ord : EvalOrder) (n pc : Nat)
    (below window : custom_stack) (top : Int) (cin : IStream) (cout : List OutItem) :
    exec_command ord ⟨n, .ROT, some ((window.length : Int) + 1)⟩
        ⟨pc, below ++ window ++ [top], cin, cout⟩ =
        .ok ⟨pc, below ++ [top] ++ window, cin, cout⟩ ∧
      (∀ i, i < below.length →
        (below ++ [top] ++ window)[i]? = (below ++ window ++ [top])[i]?) ∧
      (below ++ [top] ++ window)[below.length]? = some top ∧
      (∀ j, j < window.length →
        (below ++ [top] ++ window)[below.length + 1 + j]? =
          (below ++ window ++ [top])[below.length + j]?) ∧
      (window ≠ [] → (below ++ [top] ++ window).getLast? = (below ++ window).getLast?) ∧
      (window = [] → below ++ [top] ++ window = below ++ window ++ [top]) := by
  refine ⟨exec_rot_window ord n pc below window top cin cout, ?_, ?_, ?_, ?_, ?_⟩
  · intro i hi
    rw [List.append_assoc, List.append_assoc, List.getElem?_append_left hi,
      List.getElem?_append_left hi]
  · rw [List.append_assoc, List.getElem?_append_right (Nat.le_refl _), Nat.sub_self,
      List.singleton_append, List.getElem?_cons_zero]
  · intro j hj
    have h1 : below.length ≤ below.length + 1 + j := by omega
    have h2 : below.length ≤ below.length + j := by omega
    have e1 : below.length + 1 + j - below.length = j + 1 := by omega
    have e2 : below.length + j - below.length = j := by omega
    rw [List.append_assoc, List.append_assoc, List.getElem?_append_right h1,
      List.getElem?_append_right h2, e1, e2, List.singleton_append,
      List.getElem?_cons_succ, List.getElem?_append_left hj]
  · intro hw
    rw [List.getLast?_append_of_ne_nil _ hw, List.getLast?_append_of_ne_nil _ hw]
  · intro hw
    subst hw
    simp

/-! ## C4: JMPZ and the program counter -/

theorem exec_jmpz (ord : EvalOrder) (n pc : Nat) (v : Option Int) (rest : custom_stack)
    (cond addr : Int) (cin : IStream) (cout : List OutItem) :
    exec_command ord ⟨n, .JMPZ, v⟩ ⟨pc, rest ++ [cond, addr], cin, cout⟩ =
      .ok ⟨if cond = 0 then (to_size_t addr + SIZE_MOD - 1) % SIZE_MOD else pc,
        rest, cin, cout⟩ := by
  have h : rest ++ [cond, addr] = (rest ++ [cond]) ++ [addr] := by simp
  rw [h]
  by_cases hc : cond = 0
  · simp only [exec_command, pop_concat, hc, if_true]
  · simp only [exec_command, pop_concat, hc, if_false]

theorem to_size_t_nonneg (a : Int) (h0 : 0 ≤ a) (h1 : a < SIZE_MOD) :
    to_size_t a = a.toNat := by
  unfold to_size_t
  rw [Int.emod_eq_of_lt h0 h1]

theorem to_size_t_neg (a : Int) (h0 : a < 0) (h1 : -(SIZE_MOD : Int) ≤ a) :
    to_size_t a = (a + SIZE_MOD).toNat := by
  unfold to_size_t
  have e : a % (SIZE_MOD : Int) = (a + SIZE_MOD) % (SIZE_MOD : Int) := by
    simp
  rw [e, Int.emod_eq_of_lt (by omega) (by omega)]

theorem exec_keeps_line_num (ord : EvalOrder) (line : command) (m m1 : Machine)
    (hj : line.instruction ≠ .JMPZ) (h : exec_command ord line m = .ok m1) :
    m1.line_num = m.line_num := by
  obtain ⟨n, i, v⟩ := line
  cases i <;> simp only [exec_command, with_stack] at h
  case JMPZ => exact absurd rfl hj
  all_goals
    (repeat' split at h) <;> (cases h <;> rfl)


theorem loop_body_jmpz (ord : EvalOrder) (verbose : Bool) (n pc : Nat) (v : Option Int)
    (rest : custom_stack) (cond addr : Int) (cin : IStream) (cout : List OutItem) :
    ∃ cout1, loop_body ord verbose ⟨n, .JMPZ, v⟩ ⟨pc, rest ++ [cond, addr], cin, cout⟩ =
      .ok ⟨((if cond = 0 then (to_size_t addr + SIZE_MOD - 1) % SIZE_MOD else pc) + 1)
        % SIZE_MOD, rest, cin, cout1⟩ := by
  cases verbose
  · exact ⟨cout, by simp [loop_body, exec_jmpz]⟩
  · exact ⟨_, by simp [loop_body, exec_jmpz]; rfl⟩

theorem loop_body_keeps_counter (ord : EvalOrder) (verbose : Bool) (line : command)
    (m m1 : Machine) (hj : line.instruction ≠ .JMPZ)
    (h : loop_body ord verbose line m = .ok m1) :
    m1.line_num = (m.line_num + 1) % SIZE_MOD := by
  unfold loop_body at h
  cases verbose
  · simp only [Bool.false_eq_true, if_false] at h
    cases he : exec_command ord line m with
    | fault e => rw [he] at h; cases h
    | undefined => rw [he] at h; cases h
    | ok m2 =>
      rw [he] at h
      cases h
      simp [exec_keeps_line_num ord line m m2 hj he]
  · simp only [if_true] at h
    generalize hm0 : ({ m with cout := m.cout ++
      [OutItem.trace_command m.line_num (instruction_name line.instruction) line.value] }
        : Machine) = m0 at h
    cases he : exec_command ord line m0 with
    | fault e => rw [he] at h; cases h
    | undefined => rw [he] at h; cases h
    | ok m2 =>
      rw [he] at h
      cases h
      have := exec_keeps_line_num ord line m0 m2 hj he
      rw [← hm0] at this
      simp [this]

theorem jump_target (addr : Int) (len : Nat) (h0 : 0 ≤ addr) (h1 : addr < len)
    (hlen : len < SIZE_MOD) :
    ((to_size_t addr + SIZE_MOD - 1) % SIZE_MOD + 1) % SIZE_MOD = addr.toNat := by
  have hs : addr < (SIZE_MOD : Int) := by omega
  rw [to_size_t_nonneg addr h0 hs]
  by_cases hz : addr = 0
  · subst hz
    simp [SIZE_MOD]
  · have hn : 1 ≤ addr.toNat := by omega
    have hl : addr.toNat < len := by omega
    have e : (addr.toNat + SIZE_MOD - 1) = (addr.toNat - 1) + SIZE_MOD := by omega
    have e1 : (addr.toNat - 1) % SIZE_MOD = addr.toNat - 1 := Nat.mod_eq_of_lt (by omega)
    have e2 : (addr.toNat - 1 + 1) % SIZE_MOD = addr.toNat - 1 + 1 :=
      Nat.mod_eq_of_lt (by omega)
    rw [e, Nat.add_mod_right, e1, e2]
    omega

/-- The program PUSH 0, PUSH 0, JMPZ, which jumps back to its first command for ever. -/
theorem jmpz_loop_program_length : ([⟨0, .PUSH, some 0⟩, ⟨1, .PUSH, some 0⟩,
    ⟨2, .JMPZ, none⟩] : List command).length < SIZE_MOD := by
  simp [SIZE_MOD]

/-- C4: in a state whose command is JMPZ and whose stack has `addr` on top and `cond`
directly below it, the loop body completes, removes exactly those two values, and the loop
continues from the new state; when `cond = 0` and `0 <= addr < program length` the counter
of the new state is `addr` (also for `addr = 0`, through the unsigned wrap-around of
`addr - 1` and the increment); when `cond != 0` the counter is `pc + 1`. Every command
other than JMPZ that completes leaves the counter at `pc + 1`. -/
theorem C4_jmpz_sets_counter (ord : EvalOrder) (verbose : Bool) (program : List command)
    (fuel : Nat) (m : Machine) (line : command) (rest : custom_stack) (cond addr : Int)
    (hlen : program.length < SIZE_MOD)
    (hline : program[m.line_num]? = some line)
    (hj : line.instruction = .JMPZ)
    (hs : m.stack = rest ++ [cond, addr]) :
    (∃ m1, loop_body ord verbose line m = .ok m1 ∧
        run ord verbose program (fuel + 1) m = run ord verbose program fuel m1 ∧
        m1.stack = rest ∧ m1.cin = m.cin ∧
        (cond = 0 → 0 ≤ addr → addr < program.length → m1.line_num = addr.toNat) ∧
        (cond ≠ 0 → m1.line_num = m.line_num + 1)) ∧
      (∀ (m2 m3 : Machine) (line2 : command), program[m2.line_num]? = some line2 →
        line2.instruction ≠ .JMPZ → loop_body ord verbose line2 m2 = .ok m3 →
        m3.line_num = m2.line_num + 1) := by
  have hpc : ∀ (m2 : Machine) (l2 : command), program[m2.line_num]? = some l2 →
      (m2.line_num + 1) % SIZE_MOD = m2.line_num + 1 := by
    intro m2 l2 h2
    have hlt : m2.line_num < program.length := by
      rcases Nat.lt_or_ge m2.line_num program.length with h | h
      · exact h
      · rw [List.getElem?_eq_none h] at h2
        cases h2
    exact Nat.mod_eq_of_lt (by omega)
  constructor
  · obtain ⟨pc, st, cin, cout⟩ := m
    obtain ⟨n, i, v⟩ := line
    simp only at hj hs hline
    subst hj hs
    obtain ⟨cout1, hb⟩ := loop_body_jmpz ord verbose n pc v rest cond addr cin cout
    refine ⟨_, hb, run_step _ _ _ _ _ _ _ hline hb, rfl, rfl, ?_, ?_⟩
    · intro hc h0 h1
      simp only [hc, if_true]
      exact jump_target addr program.length h0 h1 hlen
    · intro hc
      simp only [hc, if_false]
      exact hpc ⟨pc, rest ++ [cond, addr], cin, cout⟩ _ hline
  · intro m2 m3 line2 h2 hj2 hb
    rw [loop_body_keeps_counter ord verbose line2 m2 m3 hj2 hb]
    exact hpc m2 line2 h2

/-- C4 at a concrete state: the third command of PUSH 0, PUSH 0, JMPZ with the stack 0, 0. -/
theorem C4_jmpz_sets_counter_witness :
    (∃ m1, loop_body .leftFirst false ⟨2, .JMPZ, none⟩ ⟨2, [0, 0], IStream.ofChars [], []⟩
          = .ok m1 ∧
        run .leftFirst false [⟨0, .PUSH, some 0⟩, ⟨1, .PUSH, some 0⟩, ⟨2, .JMPZ, none⟩] (5 + 1)
            ⟨2, [0, 0], IStream.ofChars [], []⟩ =
          run .leftFirst false [⟨0, .PUSH, some 0⟩, ⟨1, .PUSH, some 0⟩, ⟨2, .JMPZ, none⟩] 5 m1 ∧
        m1.stack = [] ∧ m1.cin = IStream.ofChars [] ∧
        ((0 : Int) = 0 → (0 : Int) ≤ 0 → (0 : Int) <
            ([⟨0, .PUSH, some 0⟩, ⟨1, .PUSH, some 0⟩, ⟨2, .JMPZ, none⟩] : List command).length →
          m1.line_num = (0 : Int).toNat) ∧
        ((0 : Int) ≠ 0 → m1.line_num = 2 + 1)) ∧
      (∀ (m2 m3 : Machine) (line2 : command),
        ([⟨0, .PUSH, some 0⟩, ⟨1, .PUSH, some 0⟩, ⟨2, .JMPZ, none⟩] : List command)[m2.line_num]?
          = some line2 →
        line2.instruction ≠ .JMPZ → loop_body .leftFirst false line2 m2 = .ok m3 →
        m3.line_num = m2.line_num + 1) :=
  C4_jmpz_sets_counter .leftFirst false
    [⟨0, .PUSH, some 0⟩, ⟨1, .PUSH, some 0⟩, ⟨2, .JMPZ, none⟩] 5
    ⟨2, [0, 0], IStream.ofChars [], []⟩ ⟨2, .JMPZ, none⟩ [] 0 0
    jmpz_loop_program_length rfl rfl rfl


/-! ## C5: jumps out of the program -/

theorem to_size_t_lt (a : Int) : to_size_t a < SIZE_MOD := by
  unfold to_size_t
  have h : (0 : Int) < (SIZE_MOD : Int) := by simp [SIZE_MOD]
  have h1 := Int.emod_lt_of_pos a h
  have h2 := Int.emod_nonneg a (ne_of_gt h)
  omega

theorem dec_inc_size_t (t : Nat) (h : t < SIZE_MOD) :
    ((t + SIZE_MOD - 1) % SIZE_MOD + 1) % SIZE_MOD = t := by
  by_cases hz : t = 0
  · subst hz
    simp [SIZE_MOD]
  · have e : t + SIZE_MOD - 1 = (t - 1) + SIZE_MOD := by omega
    have e1 : (t - 1) % SIZE_MOD = t - 1 := Nat.mod_eq_of_lt (by omega)
    have e2 : (t - 1 + 1) % SIZE_MOD = t - 1 + 1 := Nat.mod_eq_of_lt (by omega)
    rw [e, Nat.add_mod_right, e1, e2]
    omega

theorem to_size_t_outside (addr : Int) (len : Nat)
    (hsz : len + 2 ^ 31 ≤ SIZE_MOD)
    (hr : -(2 ^ 31) ≤ addr ∧ addr < 2 ^ 31)
    (hout : addr < 0 ∨ (len : Int) ≤ addr) : len ≤ to_size_t addr := by
  have hM : (SIZE_MOD : Int) = 2 ^ 64 := by simp [SIZE_MOD]
  have hM2 : SIZE_MOD = 2 ^ 64 := rfl
  rcases Int.lt_or_le addr 0 with hneg | hpos
  · rw [to_size_t_neg addr hneg (by omega)]
    omega
  · rw [to_size_t_nonneg addr hpos (by omega)]
    omega

/-- C5, as stated, fails: a taken jump to an address above the program length, or to a
negative address, ends the loop normally instead of with a fault. -/
theorem C5_jump_beyond_end_counterexample :
    execute_program .leftFirst [⟨0, .PUSH, some 0⟩, ⟨1, .PUSH, some 7⟩, ⟨2, .JMPZ, none⟩]
        false 3 (IStream.ofChars []) =
        .finished ⟨7, [], IStream.ofChars [], []⟩ ∧
      execute_program .leftFirst [⟨0, .PUSH, some 0⟩, ⟨1, .PUSH, some (-1)⟩, ⟨2, .JMPZ, none⟩]
        false 3 (IStream.ofChars []) =
        .finished ⟨2 ^ 64 - 1, [], IStream.ofChars [], []⟩ := by
  constructor <;> decide

/-- C5, amended: when JMPZ is executed with `cond = 0` and a 32-bit `addr` that equals the
program length, is greater than it, or is negative, the two values are removed, the
counter becomes `addr` converted to `size_t`, which is not below the program length, and
execution terminates normally. -/
theorem C5_jump_out_of_range_terminates (ord : EvalOrder) (verbose : Bool)
    (program : List command) (fuel : Nat) (m : Machine) (line : command)
    (rest : custom_stack) (addr : Int)
    (hsz : program.length + 2 ^ 31 ≤ SIZE_MOD)
    (hline : program[m.line_num]? = some line)
    (hj : line.instruction = .JMPZ)
    (hs : m.stack = rest ++ [0, addr])
    (hr : -(2 ^ 31) ≤ addr ∧ addr < 2 ^ 31)
    (hout : addr < 0 ∨ (program.length : Int) ≤ addr) :
    ∃ m1, run ord verbose program (fuel + 1) m = .finished m1 ∧ m1.stack = rest ∧
      m1.line_num = to_size_t addr ∧ program.length ≤ m1.line_num := by
  obtain ⟨pc, st, cin, cout⟩ := m
  obtain ⟨n, i, v⟩ := line
  simp only at hj hs hline
  subst hj hs
  obtain ⟨cout1, hb⟩ := loop_body_jmpz ord verbose n pc v rest 0 addr cin cout
  simp only [if_true] at hb
  rw [dec_inc_size_t _ (to_size_t_lt addr)] at hb
  have hge := to_size_t_outside addr program.length hsz hr hout
  refine ⟨⟨to_size_t addr, rest, cin, cout1⟩, ?_, rfl, rfl, hge⟩
  rw [run_step _ _ _ _ _ _ _ hline hb]
  exact run_finished _ _ _ _ _ (List.getElem?_eq_none hge)

/-- C5 at a concrete state: PUSH 0, PUSH 7, JMPZ at its third command. -/
theorem C5_jump_out_of_range_terminates_witness :
    ∃ m1, run .leftFirst false
        [⟨0, .PUSH, some 0⟩, ⟨1, .PUSH, some 7⟩, ⟨2, .JMPZ, none⟩] (0 + 1)
        ⟨2, [0, 7], IStream.ofChars [], []⟩ = .finished m1 ∧ m1.stack = [] ∧
      m1.line_num = to_size_t 7 ∧
      ([⟨0, .PUSH, some 0⟩, ⟨1, .PUSH, some 7⟩, ⟨2, .JMPZ, none⟩] : List command).length
        ≤ m1.line_num :=
  C5_jump_out_of_range_terminates .leftFirst false
    [⟨0, .PUSH, some 0⟩, ⟨1, .PUSH, some 7⟩, ⟨2, .JMPZ, none⟩] 0
    ⟨2, [0, 7], IStream.ofChars [], []⟩ ⟨2, .JMPZ, none⟩ [] 7
    (by simp [SIZE_MOD]) rfl rfl rfl (by constructor <;> norm_num) (Or.inr (by simp))


/-! ## C6 and C7: too few values on the stack -/

theorem jmpz_short (ord : EvalOrder) (n : Nat) (v : Option Int) (m : Machine)
    (h : m.stack.length < 2) : exec_command ord ⟨n, .JMPZ, v⟩ m = .undefined := by
  rcases short_stack m.stack h with h0 | ⟨w, h1⟩
  · simp only [exec_command, h0, pop_nil]
  · simp only [exec_command, h1, pop_single, pop_nil]

theorem exec_underflow (ord : EvalOrder) (line : command) (m : Machine)
    (h : (line.instruction ∈ [instruction.MUL, .ADD, .SUB, .GT, .LT, .EQ, .JMPZ] ∧
        m.stack.length < 2) ∨ (line.instruction = .DUP ∧ m.stack = [])) :
    exec_command ord line m = .undefined := by
  obtain ⟨n, i, v⟩ := line
  rcases h with ⟨hi, hs⟩ | ⟨hi, hs⟩
  · simp only [List.mem_cons, List.mem_singleton, List.not_mem_nil, or_false] at hi
    rcases hi with hi | hi | hi | hi | hi | hi | hi <;> subst hi
    all_goals first
      | exact jmpz_short ord n v m hs
      | simp only [exec_command, binary_op_short _ _ _ hs, with_stack]
  · simp only at hi
    subst hi
    simp only [exec_command, hs, List.getLast?_nil]

theorem loop_body_undefined (ord : EvalOrder) (verbose : Bool) (line : command)
    (m : Machine)
    (h : ∀ cout, exec_command ord line { m with cout := cout } = .undefined) :
    loop_body ord verbose line m = .undefined := by
  unfold loop_body
  cases verbose
  · have h1 := h m.cout
    simp only [Bool.false_eq_true, if_false]
    rw [show ({ m with cout := m.cout } : Machine) = m from rfl] at h1
    rw [h1]
  · simp only [if_true]
    rw [h]

/-- C6, as stated, fails: ADD on the empty stack raises no exception; the code calls
`back()` and `pop_back()` on an empty vector, for which no behaviour is defined. -/
theorem C6_add_on_empty_stack_counterexample :
    execute_program .leftFirst [⟨0, .ADD, none⟩] false 1 (IStream.ofChars []) =
      .undefined (initial_machine (IStream.ofChars [])) := by
  decide

/-- C6, amended: MUL, ADD, SUB, GT, LT, EQ or JMPZ on a stack with fewer than two values,
and DUP on an empty stack, reach `back()` or `pop_back()` on an empty vector: the code has
no check, no exception is thrown, and the behaviour of the run from that command on is
undefined (it is neither a fault nor a normal termination nor a continuation that the
code determines). -/
theorem C6_underflow_is_undefined (ord : EvalOrder) (verbose : Bool)
    (program : List command) (fuel : Nat) (m : Machine) (line : command)
    (hline : program[m.line_num]? = some line)
    (h : (line.instruction ∈ [instruction.MUL, .ADD, .SUB, .GT, .LT, .EQ, .JMPZ] ∧
        m.stack.length < 2) ∨ (line.instruction = .DUP ∧ m.stack = [])) :
    loop_body ord verbose line m = .undefined ∧
      run ord verbose program (fuel + 1) m = .undefined m ∧
      (∀ e m1, run ord verbose program (fuel + 1) m ≠ .fault e m1) := by
  have hb : loop_body ord verbose line m = .undefined :=
    loop_body_undefined ord verbose line m (fun cout => exec_underflow ord line _ h)
  have hr := run_undefined ord verbose program fuel m line hline hb
  refine ⟨hb, hr, ?_⟩
  intro e m1 hf
  rw [hr] at hf
  cases hf

/-- C6 at a concrete state: the program ADD on the empty stack. -/
theorem C6_underflow_is_undefined_witness :
    loop_body .leftFirst false ⟨0, .ADD, none⟩ (initial_machine (IStream.ofChars [])) =
        .undefined ∧
      run .leftFirst false [⟨0, .ADD, none⟩] (0 + 1) (initial_machine (IStream.ofChars [])) =
        .undefined (initial_machine (IStream.ofChars [])) ∧
      (∀ e m1, run .leftFirst false [⟨0, .ADD, none⟩] (0 + 1)
        (initial_machine (IStream.ofChars [])) ≠ .fault e m1) :=
  C6_underflow_is_undefined .leftFirst false [⟨0, .ADD, none⟩] 0
    (initial_machine (IStream.ofChars [])) ⟨0, .ADD, none⟩ rfl
    (Or.inl ⟨by simp, by simp [initial_machine]⟩)

theorem pop_loop_underflow (count : Nat) (s : custom_stack) (h : s.length < count) :
    pop_loop count s = none := by
  induction count generalizing s with
  | zero => omega
  | succ n ih =>
    rcases List.eq_nil_or_concat s with h0 | ⟨init, v, h1⟩
    · subst h0
      simp only [pop_loop, pop_nil]
    · subst h1
      rw [List.concat_eq_append] at h ⊢
      simp only [pop_loop, pop_concat]
      apply ih
      simp only [List.length_append, List.length_singleton] at h
      omega

theorem exec_pop_rot_out_of_range (ord : EvalOrder) (line : command) (m : Machine)
    (k : Int)
    (hi : line.instruction = .POP ∨ line.instruction = .ROT)
    (hv : line.value = some k)
    (hr : -(2 ^ 31) ≤ k ∧ k < 2 ^ 31)
    (hsz : m.stack.length + 2 ^ 31 < SIZE_MOD)
    (hk : k < 0 ∨ (m.stack.length : Int) < k) :
    exec_command ord line m = .undefined := by
  obtain ⟨n, i, v⟩ := line
  simp only at hi hv
  subst hv
  have hM2 : SIZE_MOD = 2 ^ 64 := rfl
  have hM : (SIZE_MOD : Int) = 2 ^ 64 := by simp [SIZE_MOD]
  rcases hi with hi | hi <;> subst hi
  · have hlt : m.stack.length < to_size_t k := by
      rcases Int.lt_or_le k 0 with hneg | hpos
      · rw [to_size_t_neg k hneg (by omega)]
        omega
      · rw [to_size_t_nonneg k hpos (by omega)]
        omega
    simp only [exec_command, pop_loop_underflow _ _ hlt, with_stack]
  · have hg : ¬ (1 ≤ k ∧ k ≤ (m.stack.length : Int)) := by omega
    simp only [exec_command, if_neg hg]

/-- C7, as stated, fails: POP 1 on the empty stack and ROT 2 on a stack of one value raise
no exception; the code pops an empty vector, or forms an iterator before its beginning,
for which no behaviour is defined. -/
theorem C7_pop_rot_beyond_depth_counterexample :
    execute_program .leftFirst [⟨0, .POP, some 1⟩] false 1 (IStream.ofChars []) =
        .undefined (initial_machine (IStream.ofChars [])) ∧
      execute_program .leftFirst [⟨0, .PUSH, some 5⟩, ⟨1, .ROT, some 2⟩] false 2
        (IStream.ofChars []) =
        .undefined ⟨1, [5], IStream.ofChars [], []⟩ := by
  constructor <;> decide

/-- C7, amended: for a 32-bit operand k that is negative or greater than the stack depth,
POP k and ROT k have no check in the code and throw no exception: POP pops until it calls
`back()` and `pop_back()` on the empty vector, ROT passes `std::rotate` an iterator outside
the vector, and the behaviour of the run from that command on is undefined (on every run
alike). -/
theorem C7_pop_rot_out_of_range_is_undefined (ord : EvalOrder) (verbose : Bool)
    (program : List command) (fuel : Nat) (m : Machine) (line : command) (k : Int)
    (hline : program[m.line_num]? = some line)
    (hi : line.instruction = .POP ∨ line.instruction = .ROT)
    (hv : line.value = some k)
    (hr : -(2 ^ 31) ≤ k ∧ k < 2 ^ 31)
    (hsz : m.stack.length + 2 ^ 31 < SIZE_MOD)
    (hk : k < 0 ∨ (m.stack.length : Int) < k) :
    loop_body ord verbose line m = .undefined ∧
      run ord verbose program (fuel + 1) m = .undefined m ∧
      (∀ e m1, run ord verbose program (fuel + 1) m ≠ .fault e m1) := by
  have hb : loop_body ord verbose line m = .undefined :=
    loop_body_undefined ord verbose line m
      (fun cout => exec_pop_rot_out_of_range ord line _ k hi hv hr hsz hk)
  have hrun := run_undefined ord verbose program fuel m line hline hb
  refine ⟨hb, hrun, ?_⟩
  intro e m1 hf
  rw [hrun] at hf
  cases hf

/-- C7 at a concrete state: ROT -1 on a stack of one value. -/
theorem C7_pop_rot_out_of_range_is_undefined_witness :
    loop_body .leftFirst false ⟨0, .ROT, some (-1)⟩ ⟨0, [5], IStream.ofChars [], []⟩ =
        .undefined ∧
      run .leftFirst false [⟨0, .ROT, some (-1)⟩] (0 + 1) ⟨0, [5], IStream.ofChars [], []⟩ =
        .undefined ⟨0, [5], IStream.ofChars [], []⟩ ∧
      (∀ e m1, run .leftFirst false [⟨0, .ROT, some (-1)⟩] (0 + 1)
        ⟨0, [5], IStream.ofChars [], []⟩ ≠ .fault e m1) :=
  C7_pop_rot_out_of_range_is_undefined .leftFirst false [⟨0, .ROT, some (-1)⟩] 0
    ⟨0, [5], IStream.ofChars [], []⟩ ⟨0, .ROT, some (-1)⟩ (-1) rfl (Or.inr rfl) rfl
    (by constructor <;> norm_num) (by simp [SIZE_MOD]) (Or.inl (by norm_num))


/-! ## C17: ADD and MUL do not depend on the order of the pushes -/

theorem exec_push (ord : EvalOrder) (n : Nat) (v : Int) (m : Machine) :
    exec_command ord ⟨n, .PUSH, some v⟩ m = .ok { m with stack := m.stack ++ [v] } := rfl

theorem run_push_push_op (ord : EvalOrder) (op : instruction) (f : Int → Int → Int)
    (a b : Int) (s : custom_stack) (cin : IStream) (cout : List OutItem) (extra : Nat)
    (hop : ∀ (m : Machine), exec_command ord ⟨2, op, none⟩ m =
      with_stack m (binary_op ord f m.stack)) :
    run ord false (push_push_op op a b) (3 + extra) ⟨0, s, cin, cout⟩ =
      .finished ⟨3, s ++ [ord.combine f b a], cin, cout⟩ := by
  have h : run ord false (push_push_op op a b) 3 ⟨0, s, cin, cout⟩ =
      .finished ⟨3, s ++ [ord.combine f b a], cin, cout⟩ := by
    have e : s ++ [a] ++ [b] = s ++ [a, b] := by simp
    simp [run, push_push_op, loop_body, exec_push, hop, e, binary_op_two, with_stack,
      SIZE_MOD]
  rw [run_more_fuel _ _ _ _ _ _ (by rw [h]; intro m1 hm; cases hm)]
  exact h

/-- C17: for all values a and b, every initial stack and both evaluation orders, the
programs PUSH a, PUSH b, ADD and PUSH b, PUSH a, ADD end normally with the same stack, the
initial stack with the 32-bit sum on top, and likewise for MUL with the 32-bit product. -/
theorem C17_add_mul_commute (ord : EvalOrder) (a b : Int) (s : custom_stack)
    (cin : IStream) (cout : List OutItem) (extra : Nat) :
    run ord false (push_push_op .ADD a b) (3 + extra) ⟨0, s, cin, cout⟩ =
        .finished ⟨3, s ++ [wrap32 (a + b)], cin, cout⟩ ∧
      run ord false (push_push_op .ADD b a) (3 + extra) ⟨0, s, cin, cout⟩ =
        .finished ⟨3, s ++ [wrap32 (a + b)], cin, cout⟩ ∧
      run ord false (push_push_op .MUL a b) (3 + extra) ⟨0, s, cin, cout⟩ =
        .finished ⟨3, s ++ [wrap32 (a * b)], cin, cout⟩ ∧
      run ord false (push_push_op .MUL b a) (3 + extra) ⟨0, s, cin, cout⟩ =
        .finished ⟨3, s ++ [wrap32 (a * b)], cin, cout⟩ := by
  have hadd : ∀ x y : Int, ord.combine (fun l r => wrap32 (l + r)) x y = wrap32 (y + x) := by
    intro x y
    cases ord
    · simp [EvalOrder.combine, Int.add_comm]
    · simp [EvalOrder.combine]
  have hmul : ∀ x y : Int, ord.combine (fun l r => wrap32 (l * r)) x y = wrap32 (y * x) := by
    intro x y
    cases ord
    · simp [EvalOrder.combine, Int.mul_comm]
    · simp [EvalOrder.combine]
  refine ⟨?_, ?_, ?_, ?_⟩
  · rw [run_push_push_op ord .ADD (fun l r => wrap32 (l + r)) a b s cin cout extra
      (fun m => rfl), hadd]
  · rw [run_push_push_op ord .ADD (fun l r => wrap32 (l + r)) b a s cin cout extra
      (fun m => rfl), hadd, Int.add_comm]
  · rw [run_push_push_op ord .MUL (fun l r => wrap32 (l * r)) a b s cin cout extra
      (fun m => rfl), hmul]
  · rw [run_push_push_op ord .MUL (fun l r => wrap32 (l * r)) b a s cin cout extra
      (fun m => rfl), hmul, Int.mul_comm]

/-! ## C18: ROT k, k times -/

theorem exec_rot_rotate (ord : EvalOrder) (n pc : Nat) (below w : custom_stack)
    (cin : IStream) (cout : List OutItem) (hw : w ≠ []) :
    exec_command ord ⟨n, .ROT, some (w.length : Int)⟩ ⟨pc, below ++ w, cin, cout⟩ =
      .ok ⟨pc, below ++ List.rotate w (w.length - 1), cin, cout⟩ := by
  rcases List.eq_nil_or_concat w with h0 | ⟨window, top, h1⟩
  · exact absurd h0 hw
  · subst h1
    rw [List.concat_eq_append]
    have e1 : (((window ++ [top]).length : Nat) : Int) = (window.length : Int) + 1 := by
      simp
    have e2 : (window ++ [top]).length - 1 = window.length := by simp
    rw [e1, e2, List.rotate_append_length_eq, ← List.append_assoc, ← List.append_assoc]
    exact exec_rot_window ord n pc below window top cin cout

theorem iterate_rot (ord : EvalOrder) (n pc : Nat) (below w : custom_stack)
    (cin : IStream) (cout : List OutItem) (hw : w ≠ []) (times : Nat) :
    iterate_command ord ⟨n, .ROT, some (w.length : Int)⟩ times ⟨pc, below ++ w, cin, cout⟩ =
      .ok ⟨pc, below ++ List.rotate w ((w.length - 1) * times), cin, cout⟩ := by
  induction times generalizing w with
  | zero => simp [iterate_command]
  | succ t ih =>
    have hlen : (List.rotate w (w.length - 1)).length = w.length := List.length_rotate _ _
    have hne : List.rotate w (w.length - 1) ≠ [] := by
      intro h0
      rw [h0] at hlen
      exact hw (List.length_eq_zero.mp hlen.symm)
    have h := ih (List.rotate w (w.length - 1)) hne
    rw [hlen, List.rotate_rotate] at h
    simp only [iterate_command, exec_rot_rotate ord n pc below w cin cout hw]
    rw [h]
    have e : w.length - 1 + (w.length - 1) * t = (w.length - 1) * (t + 1) := by ring
    rw [e]

/-- C18: for every k >= 1 and every stack of depth at least k, executing ROT k exactly k
times in a row returns the stack (and the whole machine) to what it was; a single ROT k
keeps the depth and the multiset of values, and ROT 1 leaves the stack unchanged. -/
theorem C18_rot_k_times_is_identity (ord : EvalOrder) (n pc : Nat) (k : Nat)
    (s : custom_stack) (cin : IStream) (cout : List OutItem)
    (hk : 1 ≤ k) (hd : k ≤ s.length) :
    iterate_command ord ⟨n, .ROT, some (k : Int)⟩ k ⟨pc, s, cin, cout⟩ =
        .ok ⟨pc, s, cin, cout⟩ ∧
      ∃ s1, exec_command ord ⟨n, .ROT, some (k : Int)⟩ ⟨pc, s, cin, cout⟩ =
          .ok ⟨pc, s1, cin, cout⟩ ∧
        s1.length = s.length ∧ s1.Perm s ∧ (k = 1 → s1 = s) := by
  have hsplit : s = s.take (s.length - k) ++ s.drop (s.length - k) :=
    (List.take_append_drop _ _).symm
  have hwl : (s.drop (s.length - k)).length = k := by
    rw [List.length_drop]
    omega
  have hw : s.drop (s.length - k) ≠ [] := by
    intro h0
    rw [h0] at hwl
    simp at hwl
    omega
  generalize s.take (s.length - k) = below at hsplit
  generalize s.drop (s.length - k) = w at hsplit hwl hw
  subst hsplit
  subst hwl
  constructor
  · rw [iterate_rot ord n pc below w cin cout hw w.length]
    have e : (w.length - 1) * w.length = w.length * (w.length - 1) := Nat.mul_comm _ _
    rw [e, List.rotate_length_mul]
  · refine ⟨below ++ List.rotate w (w.length - 1),
      exec_rot_rotate ord n pc below w cin cout hw, ?_, ?_, ?_⟩
    · simp [List.length_rotate]
    · exact List.Perm.append_left below (List.rotate_perm w _)
    · intro h1
      rw [h1]
      simp

/-- C18 at a concrete state: ROT 3 three times on the stack 1, 2, 3, 4. -/
theorem C18_rot_k_times_is_identity_witness :
    iterate_command .leftFirst ⟨0, .ROT, some ((3 : Nat) : Int)⟩ 3
        ⟨0, [1, 2, 3, 4], IStream.ofChars [], []⟩ =
        .ok ⟨0, [1, 2, 3, 4], IStream.ofChars [], []⟩ ∧
      ∃ s1, exec_command .leftFirst ⟨0, .ROT, some ((3 : Nat) : Int)⟩
          ⟨0, [1, 2, 3, 4], IStream.ofChars [], []⟩ =
          .ok ⟨0, s1, IStream.ofChars [], []⟩ ∧
        s1.length = [1, 2, 3, (4 : Int)].length ∧ s1.Perm [1, 2, 3, 4] ∧ (3 = 1 → s1 = [1, 2, 3, 4]) :=
  C18_rot_k_times_is_identity .leftFirst 0 0 3 [1, 2, 3, 4] (IStream.ofChars []) []
    (by norm_num) (by simp)


/-! ## C16: verbose mode -/

theorem strip_append_trace (m : Machine) (item : OutItem) (h : item.is_written = false) :
    ({ m with cout := m.cout ++ [item] } : Machine).strip = m.strip := by
  simp [Machine.strip, List.filter_append, h]

theorem exec_strip (ord : EvalOrder) (line : command) (m : Machine) :
    exec_command ord line m.strip = strip_outcome (exec_command ord line m) := by
  obtain ⟨n, i, v⟩ := line
  obtain ⟨pc, st, cin, cout⟩ := m
  cases i <;> simp only [exec_command, Machine.strip, with_stack]
  all_goals (repeat' split) <;>
    simp_all [strip_outcome, Machine.strip, List.filter_append, OutItem.is_written]

theorem loop_body_strip (ord : EvalOrder) (verbose : Bool) (line : command) (m : Machine) :
    loop_body ord false line m.strip = strip_outcome (loop_body ord verbose line m) := by
  cases verbose
  · simp only [loop_body, Bool.false_eq_true, if_false, exec_strip]
    cases exec_command ord line m <;> simp [strip_outcome, Machine.strip]
  · simp only [loop_body, Bool.false_eq_true, if_false, if_true]
    have h := strip_append_trace m
      (.trace_command m.line_num (instruction_name line.instruction) line.value) rfl
    rw [← h, exec_strip]
    cases exec_command ord line { m with cout := m.cout ++
      [OutItem.trace_command m.line_num (instruction_name line.instruction) line.value] } <;>
      simp [strip_outcome, Machine.strip, List.filter_append, OutItem.is_written]

theorem run_strip (ord : EvalOrder) (verbose : Bool) (program : List command) (fuel : Nat)
    (m : Machine) :
    (run ord verbose program fuel m).strip = run ord false program fuel m.strip := by
  induction fuel generalizing m with
  | zero =>
    have e : m.strip.line_num = m.line_num := rfl
    cases hp : program[m.line_num]? <;> simp [run, e, hp, Result.strip]
  | succ n ih =>
    have e : m.strip.line_num = m.line_num := rfl
    cases hp : program[m.line_num]? with
    | none => simp [run, e, hp, Result.strip]
    | some line =>
      have hb := loop_body_strip ord verbose line m
      cases hl : loop_body ord verbose line m with
      | fault e1 =>
        rw [hl] at hb
        simp [run, e, hp, hl, hb, strip_outcome, Result.strip]
      | undefined =>
        rw [hl] at hb
        simp [run, e, hp, hl, hb, strip_outcome, Result.strip]
      | ok m1 =>
        rw [hl] at hb
        simp [run, e, hp, hl, hb, strip_outcome, ih]

/-- C16: for every program, every READ input and every bound on the number of commands,
the run of `execute_program` with `verbose = true`, once the verbose lines are removed from
its output, is the run with `verbose = false`: the same way of ending (normal, the same
exception at the same command, the same undefined operation, or still running), the same
counter, stack and remaining input, and the same WRITE values in the same order. Taking the
bound 0, 1, 2, ... shows that both runs pass through the same counters and stacks. -/
theorem C16_verbose_does_not_change_the_run (ord : EvalOrder) (program : List command)
    (fuel : Nat) (cin : IStream) :
    (execute_program ord program true fuel cin).strip =
      execute_program ord program false fuel cin := by
  unfold execute_program
  rw [run_strip]
  rfl

/-! ## C19: termination without JMPZ -/

theorem getElem?_lt {α : Type} (l : List α) (i : Nat) (a : α) (h : l[i]? = some a) :
    i < l.length := by
  rcases Nat.lt_or_ge i l.length with h1 | h1
  · exact h1
  · rw [List.getElem?_eq_none h1] at h
    cases h

theorem getElem?_mem_list {α : Type} (l : List α) (i : Nat) (a : α) (h : l[i]? = some a) :
    a ∈ l := by
  have hlt := getElem?_lt l i a h
  rw [List.getElem?_eq_getElem hlt] at h
  cases h
  exact List.getElem_mem hlt

theorem step_without_jmpz (ord : EvalOrder) (verbose : Bool) (program : List command)
    (hno : ∀ c ∈ program, c.instruction ≠ .JMPZ) (hlen : program.length < SIZE_MOD)
    (m m1 : Machine) (line : command) (hp : program[m.line_num]? = some line)
    (hb : loop_body ord verbose line m = .ok m1) : m1.line_num = m.line_num + 1 := by
  rw [loop_body_keeps_counter ord verbose line m m1 (hno line (getElem?_mem_list _ _ _ hp)) hb]
  have := getElem?_lt _ _ _ hp
  exact Nat.mod_eq_of_lt (by omega)

theorem run_without_jmpz_stops (ord : EvalOrder) (verbose : Bool) (program : List command)
    (hno : ∀ c ∈ program, c.instruction ≠ .JMPZ) (hlen : program.length < SIZE_MOD)
    (fuel : Nat) (m : Machine) (hf : program.length ≤ m.line_num + fuel) (m2 : Machine) :
    run ord verbose program fuel m ≠ .running m2 := by
  induction fuel generalizing m with
  | zero =>
    rw [run_finished _ _ _ _ _ (List.getElem?_eq_none (by omega))]
    intro h
    cases h
  | succ n ih =>
    cases hp : program[m.line_num]? with
    | none =>
      rw [run_finished _ _ _ _ _ hp]
      intro h
      cases h
    | some line =>
      cases hb : loop_body ord verbose line m with
      | fault e =>
        rw [run_fault _ _ _ _ _ _ _ hp hb]
        intro h
        cases h
      | undefined =>
        rw [run_undefined _ _ _ _ _ _ hp hb]
        intro h
        cases h
      | ok m1 =>
        rw [run_step _ _ _ _ _ _ _ hp hb]
        apply ih
        rw [step_without_jmpz ord verbose program hno hlen m m1 line hp hb]
        omega

theorem executed_without_jmpz (ord : EvalOrder) (verbose : Bool) (program : List command)
    (hno : ∀ c ∈ program, c.instruction ≠ .JMPZ) (hlen : program.length < SIZE_MOD)
    (fuel : Nat) (m : Machine) :
    ∃ count, executed_lines ord verbose program fuel m = List.range' m.line_num count ∧
      (count = 0 ∨ m.line_num + count ≤ program.length) := by
  induction fuel generalizing m with
  | zero => exact ⟨0, by simp [executed_lines], Or.inl rfl⟩
  | succ n ih =>
    cases hp : program[m.line_num]? with
    | none => exact ⟨0, by simp [executed_lines, hp], Or.inl rfl⟩
    | some line =>
      have hlt := getElem?_lt _ _ _ hp
      cases hb : loop_body ord verbose line m with
      | fault e => exact ⟨1, by simp [executed_lines, hp, hb], Or.inr (by omega)⟩
      | undefined => exact ⟨1, by simp [executed_lines, hp, hb], Or.inr (by omega)⟩
      | ok m1 =>
        obtain ⟨c, hc, hle⟩ := ih m1
        have h1 := step_without_jmpz ord verbose program hno hlen m m1 line hp hb
        refine ⟨c + 1, ?_, Or.inr ?_⟩
        · simp only [executed_lines, hp, hb, hc, h1]
          rw [List.range'_succ]
        · rcases hle with h0 | h0
          · omega
          · omega

theorem jmpz_loop_step (ord : EvalOrder) (verbose : Bool) (m : Machine)
    (h : (m.line_num = 0 ∧ m.stack = []) ∨ (m.line_num = 1 ∧ m.stack = [0]) ∨
      (m.line_num = 2 ∧ m.stack = [0, 0])) :
    ∃ line m1, jmpz_loop_program[m.line_num]? = some line ∧
      loop_body ord verbose line m = .ok m1 ∧
      ((m1.line_num = 0 ∧ m1.stack = []) ∨ (m1.line_num = 1 ∧ m1.stack = [0]) ∨
        (m1.line_num = 2 ∧ m1.stack = [0, 0])) := by
  obtain ⟨pc, st, cin, cout⟩ := m
  simp only at h
  rcases h with ⟨h1, h2⟩ | ⟨h1, h2⟩ | ⟨h1, h2⟩ <;> subst h1 h2
  · refine ⟨⟨0, .PUSH, some 0⟩, _, rfl, rfl, ?_⟩
    cases verbose <;> simp [SIZE_MOD]
  · refine ⟨⟨1, .PUSH, some 0⟩, _, rfl, rfl, ?_⟩
    cases verbose <;> simp [SIZE_MOD]
  · obtain ⟨cout1, hb⟩ := loop_body_jmpz ord verbose 2 2 none [] 0 0 cin cout
    refine ⟨⟨2, .JMPZ, none⟩, _, rfl, hb, Or.inl ⟨?_, rfl⟩⟩
    simp [to_size_t, SIZE_MOD]

theorem jmpz_loop_runs (ord : EvalOrder) (verbose : Bool) (fuel : Nat) (m : Machine)
    (h : (m.line_num = 0 ∧ m.stack = []) ∨ (m.line_num = 1 ∧ m.stack = [0]) ∨
      (m.line_num = 2 ∧ m.stack = [0, 0])) :
    ∃ m1, run ord verbose jmpz_loop_program fuel m = .running m1 := by
  induction fuel generalizing m with
  | zero =>
    obtain ⟨line, m1, hp, _, _⟩ := jmpz_loop_step ord verbose m h
    exact ⟨m, by simp [run, hp]⟩
  | succ n ih =>
    obtain ⟨line, m1, hp, hb, h1⟩ := jmpz_loop_step ord verbose m h
    rw [run_step _ _ _ _ _ _ _ hp hb]
    exact ih m1 h1


/-- C19, as stated, fails on the way of stopping: the program DUP has no JMPZ and stops
after one command, but neither normally nor with a fault: DUP on the empty stack calls
`back()` on an empty vector, which throws nothing and has no defined behaviour. -/
theorem C19_stop_without_fault_counterexample :
    execute_program .leftFirst [⟨0, .DUP, none⟩] false 1 (IStream.ofChars []) =
      .undefined (initial_machine (IStream.ofChars [])) := by
  decide

/-- C19, amended: for every program without a JMPZ command and every READ input, the run
of `execute_program` is over after at most `program.size()` commands, ending normally, with
a fault, or at an operation without defined behaviour; the commands executed are those at
indices 0, 1, 2, ... in increasing order, none twice. With JMPZ there are programs whose
execution never stops: PUSH 0, PUSH 0, JMPZ is still running after any number of
commands. -/
theorem C19_no_jmpz_terminates (ord : EvalOrder) (verbose : Bool) (program : List command)
    (cin : IStream)
    (hno : ∀ c ∈ program, c.instruction ≠ .JMPZ) (hlen : program.length < SIZE_MOD) :
    (∀ m1, execute_program ord program verbose program.length cin ≠ .running m1) ∧
      (∀ fuel, ∃ count, count ≤ program.length ∧
        executed_lines ord verbose program fuel (initial_machine cin) = List.range count) ∧
      (∀ fuel, ∃ m1, execute_program ord jmpz_loop_program verbose fuel cin = .running m1) := by
  refine ⟨?_, ?_, ?_⟩
  · intro m1
    exact run_without_jmpz_stops ord verbose program hno hlen program.length
      (initial_machine cin) (by omega) m1
  · intro fuel
    obtain ⟨c, hc, hle⟩ :=
      executed_without_jmpz ord verbose program hno hlen fuel (initial_machine cin)
    refine ⟨c, ?_, ?_⟩
    · rcases hle with h0 | h0
      · omega
      · simp only [initial_machine] at h0
        omega
    · rw [hc, List.range_eq_range']
      rfl
  · intro fuel
    exact jmpz_loop_runs ord verbose fuel (initial_machine cin) (Or.inl ⟨rfl, rfl⟩)

/-- C19 at a concrete program: PUSH 10, PUSH 3, SUB, WRITE. -/
theorem C19_no_jmpz_terminates_witness :
    (∀ m1, execute_program .leftFirst sub_program false sub_program.length
        (IStream.ofChars []) ≠ .running m1) ∧
      (∀ fuel, ∃ count, count ≤ sub_program.length ∧
        executed_lines .leftFirst false sub_program fuel
          (initial_machine (IStream.ofChars [])) = List.range count) ∧
      (∀ fuel, ∃ m1, execute_program .leftFirst jmpz_loop_program false fuel
        (IStream.ofChars []) = .running m1) :=
  C19_no_jmpz_terminates .leftFirst false sub_program (IStream.ofChars [])
    (by decide) (by simp [sub_program, SIZE_MOD])


/-! ## Facts about characters and extraction -/

theorem space_not_digit (c : Char) (h : isspace c = true) : isdigit c = false := by
  simp only [isspace, Bool.or_eq_true, decide_eq_true_eq] at h
  rcases h with ((((h | h) | h) | h) | h) | h <;> subst h <;> decide

theorem digit_not_space (c : Char) (h : isdigit c = true) : isspace c = false := by
  cases hs : isspace c with
  | false => rfl
  | true => rw [space_not_digit c hs] at h; cases h

theorem name_no_space (i : instruction) : no_space (instruction_name i).toList = true := by
  cases i <;> decide

theorem name_ne_nil (i : instruction) : (instruction_name i).toList ≠ [] := by
  cases i <;> decide

theorem instructions_at_name (i : instruction) :
    instructions_at (String.mk (instruction_name i).toList) = some i := by
  cases i <;> decide

theorem instructions_at_nil : instructions_at (String.mk []) = none := by
  decide

theorem dropWhile_skip (p : Char → Bool) (pre rest : List Char)
    (hpre : pre.all p = true) (hrest : ∀ c t, rest = c :: t → p c = false) :
    (pre ++ rest).dropWhile p = rest := by
  induction pre with
  | nil =>
    cases rest with
    | nil => rfl
    | cons c t => simp [List.dropWhile, hrest c t rfl]
  | cons a as ih =>
    simp only [List.all_cons, Bool.and_eq_true] at hpre
    simp [List.dropWhile, hpre.1, ih hpre.2]

theorem takeWhile_skip (p : Char → Bool) (pre rest : List Char)
    (hpre : pre.all p = true) (hrest : ∀ c t, rest = c :: t → p c = false) :
    (pre ++ rest).takeWhile p = pre := by
  induction pre with
  | nil =>
    cases rest with
    | nil => rfl
    | cons c t => simp [List.takeWhile, hrest c t rfl]
  | cons a as ih =>
    simp only [List.all_cons, Bool.and_eq_true] at hpre
    simp [List.takeWhile, hpre.1, ih hpre.2]

theorem sentry_skips (lead rest : List Char) (c : Char)
    (hl : all_space lead = true) (hc : isspace c = false) :
    sentry (IStream.ofChars (lead ++ c :: rest)) = (true, IStream.ofChars (c :: rest)) := by
  have h := dropWhile_skip isspace lead (c :: rest) hl
    (by intro c1 t1 e; cases e; exact hc)
  simp [sentry, IStream.ofChars, IStream.good, h]

theorem sentry_at_end (s : IStream) (hg : s.good = true) (hl : all_space s.buf = true) :
    sentry s = (false, { s with buf := [], eofbit := true, failbit := true }) := by
  have h := dropWhile_skip isspace s.buf [] hl (by intro c t e; cases e)
  rw [List.append_nil] at h
  simp [sentry, hg, h]

theorem sentry_not_good (s : IStream) (hg : s.good = false) :
    sentry s = (false, { s with failbit := true }) := by
  simp [sentry, hg]


theorem ends_number_spec (rest : List Char) (h : ends_number rest = true) :
    ∀ c t, rest = c :: t → isdigit c = false := by
  intro c t e
  subst e
  simpa [ends_number] using h

theorem delimited_spec (rest : List Char) (h : delimited rest = true) :
    ∀ c t, rest = c :: t → (!isspace c) = false := by
  intro c t e
  subst e
  simpa [delimited] using h

theorem delimited_ends_number (rest : List Char) (h : delimited rest = true) :
    ends_number rest = true := by
  cases rest with
  | nil => rfl
  | cons c t =>
    simp only [delimited] at h
    simp [ends_number, space_not_digit c h]

theorem num_field_digits (number r1 : List Char) (hne : number ≠ [])
    (hd : all_digits number = true) (he : ends_number r1 = true) :
    num_field (number ++ r1) = (false, number, r1) := by
  cases number with
  | nil => exact absurd rfl hne
  | cons d ds =>
    have hd0 : isdigit d = true := by
      simp only [all_digits, List.all_cons, Bool.and_eq_true] at hd
      exact hd.1
    have h1 : d ≠ '-' := by
      intro e
      subst e
      exact absurd hd0 (by decide)
    have h2 : d ≠ '+' := by
      intro e
      subst e
      exact absurd hd0 (by decide)
    have ht := takeWhile_skip isdigit (d :: ds) r1 hd (ends_number_spec r1 he)
    have hr := dropWhile_skip isdigit (d :: ds) r1 hd (ends_number_spec r1 he)
    unfold num_field
    split
    · rename_i t heq
      simp only [List.cons_append, List.cons.injEq] at heq
      exact absurd heq.1 h1
    · rename_i t heq
      simp only [List.cons_append, List.cons.injEq] at heq
      exact absurd heq.1 h2
    · simp only [ht, hr]

theorem num_field_minus (digits r1 : List Char)
    (hd : all_digits digits = true) (he : ends_number r1 = true) :
    num_field ('-' :: (digits ++ r1)) = (true, digits, r1) := by
  have ht := takeWhile_skip isdigit digits r1 hd (ends_number_spec r1 he)
  have hr := dropWhile_skip isdigit digits r1 hd (ends_number_spec r1 he)
  simp only [num_field, ht, hr]

theorem digits_head_not_space (number rest : List Char) (hne : number ≠ [])
    (hd : all_digits number = true) :
    ∃ c t, number ++ rest = c :: t ∧ isspace c = false := by
  cases number with
  | nil => exact absurd rfl hne
  | cons d ds =>
    simp only [all_digits, List.all_cons, Bool.and_eq_true] at hd
    exact ⟨d, ds ++ rest, rfl, digit_not_space d hd.1⟩

theorem extract_size_t_number (lead number r1 : List Char) (old : Nat)
    (hl : all_space lead = true) (hne : number ≠ []) (hd : all_digits number = true)
    (hv : decimal_value number < SIZE_MOD) (he : ends_number r1 = true) :
    extract_size_t (IStream.ofChars (lead ++ (number ++ r1))) old =
      (decimal_value number, stream_at r1) := by
  obtain ⟨c, t, hct, hc⟩ := digits_head_not_space number r1 hne hd
  have hnil : number.isEmpty = false := by
    cases number with
    | nil => exact absurd rfl hne
    | cons _ _ => rfl
  have hv2 : ¬ SIZE_MOD ≤ decimal_value number := by omega
  unfold extract_size_t
  rw [hct, sentry_skips lead t c hl hc, ← hct]
  simp only [IStream.ofChars, num_field_digits number r1 hne hd he, hnil, hv2, if_false,
    Bool.false_eq_true, Bool.false_or, stream_at]

theorem extract_string_token (gap tok r2 : List Char) (old : List Char)
    (hg : all_space gap = true) (hne : tok ≠ []) (ht : no_space tok = true)
    (hr : delimited r2 = true) :
    extract_string (IStream.ofChars (gap ++ (tok ++ r2))) old = (tok, stream_at r2) := by
  cases tok with
  | nil => exact absurd rfl hne
  | cons c t =>
    have hc : isspace c = false := by
      simp only [no_space, List.all_cons, Bool.and_eq_true, Bool.not_eq_true'] at ht
      exact ht.1
    have h1 := takeWhile_skip (fun c => !isspace c) (c :: t) r2 ht (delimited_spec r2 hr)
    have h2 := dropWhile_skip (fun c => !isspace c) (c :: t) r2 ht (delimited_spec r2 hr)
    unfold extract_string
    rw [List.cons_append, sentry_skips gap (t ++ r2) c hg hc, ← List.cons_append]
    simp only [IStream.ofChars, h1, h2, stream_at, Bool.false_or, List.isEmpty_cons]

theorem extract_int32_operand (o : Operand) (r3 : List Char)
    (hw : o.well_formed = true) (he : ends_number r3 = true) :
    extract_int32 (IStream.ofChars (o.gap ++ (o.token ++ r3))) =
      (some o.value, stream_at r3) := by
  obtain ⟨gap, minus, digits⟩ := o
  simp only [Operand.well_formed, Bool.and_eq_true, Bool.not_eq_true', decide_eq_true_eq]
    at hw
  obtain ⟨⟨⟨⟨⟨hg1, hg2⟩, hd1⟩, hd2⟩, hlo⟩, hhi⟩ := hw
  have hdne : digits ≠ [] := by
    intro e
    subst e
    cases hd1
  have hlo2 : ¬ (Operand.value ⟨gap, minus, digits⟩ < -(2 ^ 31)) := by omega
  have hhi2 : ¬ (2 ^ 31 - 1 < Operand.value ⟨gap, minus, digits⟩) := by omega
  unfold extract_int32
  cases minus with
  | false =>
    obtain ⟨c, t, hct, hc⟩ := digits_head_not_space digits r3 hdne hd2
    simp only [Operand.value, Bool.false_eq_true, if_false] at hlo2 hhi2
    simp only [Operand.token, Bool.false_eq_true, if_false, List.nil_append]
    rw [hct, sentry_skips gap t c hg2 hc, ← hct]
    simp only [IStream.ofChars, num_field_digits digits r3 hdne hd2 he, hd1, hlo2, hhi2,
      if_false, Bool.false_eq_true, Bool.false_or, stream_at, Operand.value]
  | true =>
    simp only [Operand.value, if_true] at hlo2 hhi2
    simp only [Operand.token, if_true, List.cons_append, List.nil_append]
    rw [sentry_skips gap (digits ++ r3) '-' hg2 (by decide)]
    simp only [IStream.ofChars, num_field_minus digits r3 hd2 he, hd1, hlo2, hhi2,
      if_false, if_true, Bool.false_eq_true, Bool.false_or, stream_at, Operand.value]

theorem read_value_operand (o : Operand) (r3 : List Char)
    (hw : o.well_formed = true) (he : ends_number r3 = true) :
    read_value (IStream.ofChars (o.gap ++ (o.token ++ r3))) =
      (Except.ok o.value, stream_at r3) := by
  simp [read_value, extract_int32_operand o r3 hw he, stream_at, IStream.fail]


/-! ## Reading well-formed records -/

theorem stream_at_cons (c : Char) (t : List Char) :
    stream_at (c :: t) = IStream.ofChars (c :: t) := rfl

theorem stream_at_append (a b : List Char) (h : a ≠ []) :
    stream_at (a ++ b) = IStream.ofChars (a ++ b) := by
  cases a with
  | nil => exact absurd rfl h
  | cons c t => rfl

theorem delimited_of_space (g rest : List Char) (hne : g.isEmpty = false)
    (hs : all_space g = true) : delimited (g ++ rest) = true := by
  cases g with
  | nil => cases hne
  | cons c t =>
    simp only [all_space, List.all_cons, Bool.and_eq_true] at hs
    simpa [delimited] using hs.1

theorem read_loop_good (uninit : Nat → Nat) (fuel : Nat) (cs : List Char) (k : Nat)
    (out : List command) :
    read_loop uninit (fuel + 1) (IStream.ofChars cs) k out =
      match extract_size_t (IStream.ofChars cs) (uninit k) with
      | (c_line_number, in1) =>
        if c_line_number ≠ k then
          .thrown (.runtime_error
            ("Wrong line number " ++ toString c_line_number ++ " expected " ++ toString k))
        else
          match extract_string in1 [] with
          | (name, in2) =>
            match instructions_at (String.mk name) with
            | none =>
              .thrown (.runtime_error ("Unknown instruction at line " ++ toString k))
            | some instr =>
              if value_instructions instr then
                match read_value in2 with
                | (.error e, _) => .thrown e
                | (.ok v, in3) =>
                  read_loop uninit fuel in3 ((k + 1) % SIZE_MOD)
                    (out ++ [{ line_number := c_line_number, instruction := instr,
                               value := some v }])
              else
                read_loop uninit fuel in2 ((k + 1) % SIZE_MOD)
                  (out ++ [{ line_number := c_line_number, instruction := instr,
                             value := none }]) := by
  rw [read_loop]
  simp only [IStream.ofChars, IStream.good, Bool.not_false, Bool.and_self, if_true]

theorem read_loop_record (uninit : Nat → Nat) (fuel : Nat) (l : Line) (rest : List Char)
    (k : Nat) (out : List command)
    (hw : l.well_formed k = true) (hk : k < SIZE_MOD) (hr : delimited rest = true) :
    read_loop uninit (fuel + 1) (IStream.ofChars (l.text ++ rest)) k out =
      read_loop uninit fuel (stream_at rest) ((k + 1) % SIZE_MOD) (out ++ [l.command]) := by
  obtain ⟨lead, number, gap, instr, operand⟩ := l
  simp only [Line.well_formed, Bool.and_eq_true, Bool.not_eq_true', decide_eq_true_eq] at hw
  obtain ⟨⟨⟨⟨⟨⟨hl, hn1⟩, hn2⟩, hn3⟩, hg1⟩, hg2⟩, hop⟩ := hw
  have hnne : number ≠ [] := by
    intro e
    subst e
    cases hn1
  have hgne : gap ≠ [] := by
    intro e
    subst e
    cases hg1
  have hnot : ¬ (decimal_value number ≠ k) := by simp [hn3]
  have e1 := extract_size_t_number lead number
    (gap ++ ((instruction_name instr).toList ++ (operand_text operand ++ rest))) (uninit k)
    hl hnne hn2 (by omega)
    (delimited_ends_number _ (delimited_of_space gap _ hg1 hg2))
  rw [stream_at_append gap _ hgne] at e1
  have hdel : delimited (operand_text operand ++ rest) = true := by
    cases operand with
    | none => simpa [operand_text] using hr
    | some o =>
      simp only [Bool.and_eq_true, Operand.well_formed, Bool.not_eq_true'] at hop
      simp only [operand_text, List.append_assoc]
      exact delimited_of_space o.gap _ hop.2.1.1.1.1.1 hop.2.1.1.1.1.2
  have e2 := extract_string_token gap (instruction_name instr).toList
    (operand_text operand ++ rest) [] hg2 (name_ne_nil instr) (name_no_space instr) hdel
  rw [read_loop_good]
  simp only [Line.text, List.append_assoc, e1, hnot, if_false, e2, instructions_at_name]
  cases operand with
  | none =>
    simp only [Bool.not_eq_true'] at hop
    simp [hop, operand_text, Line.command, hn3]
  | some o =>
    simp only [Bool.and_eq_true] at hop
    have hone : o.gap ≠ [] := by
      intro e
      simp [Operand.well_formed, e] at hop
    have e3 := read_value_operand o rest hop.2 (delimited_ends_number rest hr)
    simp only [operand_text, List.append_assoc, stream_at_append o.gap _ hone, hop.1, if_true,
      e3, Line.command, hn3, Option.map_some']


theorem line_number_ne_nil (l : Line) (k : Nat) (hw : l.well_formed k = true) :
    l.number ≠ [] := by
  intro e
  simp [Line.well_formed, e] at hw

theorem line_text_ne_nil (l : Line) (k : Nat) (hw : l.well_formed k = true) :
    l.text ≠ [] := by
  intro e
  have h := line_number_ne_nil l k hw
  simp only [Line.text, List.append_eq_nil] at e
  exact h e.2.1

theorem line_lead_space (l : Line) (k : Nat) (hw : l.well_formed k = true) :
    all_space l.lead = true := by
  simp only [Line.well_formed, Bool.and_eq_true] at hw
  exact hw.1.1.1.1.1.1

theorem delimited_lines (ls : List Line) (rest : List Char) (k : Nat)
    (hn : numbered k ls = true) (hs : ls.all (fun l => !l.lead.isEmpty) = true)
    (hr : delimited rest = true) : delimited (lines_text ls ++ rest) = true := by
  cases ls with
  | nil => simpa [lines_text] using hr
  | cons l2 ls2 =>
    simp only [numbered, Bool.and_eq_true] at hn
    simp only [List.all_cons, Bool.and_eq_true, Bool.not_eq_true'] at hs
    simp only [lines_text, Line.text, List.append_assoc]
    exact delimited_of_space l2.lead _ hs.1 (line_lead_space l2 k hn.1)

theorem separated_tail (l : Line) (ls : List Line) (h : separated (l :: ls) = true) :
    ls.all (fun l => !l.lead.isEmpty) = true ∧ separated ls = true := by
  simp only [separated] at h
  refine ⟨h, ?_⟩
  cases ls with
  | nil => rfl
  | cons l2 ls2 =>
    simp only [List.all_cons, Bool.and_eq_true] at h
    simpa [separated] using h.2

theorem read_loop_lines (uninit : Nat → Nat) (fuel : Nat) (rest : List Char)
    (lines : List Line) (k : Nat) (out : List command)
    (hr : lines ≠ [] → delimited rest = true)
    (hn : numbered k lines = true) (hs : separated lines = true)
    (hk : k + lines.length < SIZE_MOD) :
    read_loop uninit (fuel + lines.length) (stream_at (lines_text lines ++ rest)) k out =
      read_loop uninit fuel (stream_at rest) (k + lines.length)
        (out ++ lines.map Line.command) := by
  induction lines generalizing k out with
  | nil => simp [lines_text]
  | cons l ls ih =>
    have hr1 : delimited rest = true := hr (List.cons_ne_nil l ls)
    simp only [numbered, Bool.and_eq_true] at hn
    obtain ⟨hsa, hss⟩ := separated_tail l ls hs
    simp only [List.length_cons] at hk
    have hmod : (k + 1) % SIZE_MOD = k + 1 := Nat.mod_eq_of_lt (by omega)
    have hfuel : fuel + (l :: ls).length = (fuel + ls.length) + 1 := rfl
    rw [hfuel]
    simp only [lines_text, List.append_assoc]
    rw [stream_at_append l.text _ (line_text_ne_nil l k hn.1),
      read_loop_record uninit _ l _ k out hn.1 (by omega)
        (delimited_lines ls rest (k + 1) hn.2 hsa hr1),
      hmod, ih (k + 1) (out ++ [l.command]) (fun _ => hr1) hn.2 hss (by omega)]
    simp only [List.map_cons, List.append_assoc, List.singleton_append, List.length_cons]
    have e : k + 1 + ls.length = k + (ls.length + 1) := by omega
    rw [e]

theorem read_loop_not_good (uninit : Nat → Nat) (fuel : Nat) (s : IStream) (k : Nat)
    (out : List command) (hg : s.good = false) :
    read_loop uninit fuel s k out =
      if s.only_eof then .loaded out
      else .thrown (.runtime_error ("Error parsing program at line " ++ toString k)) := by
  rw [read_loop.eq_def]
  simp only [hg, Bool.false_eq_true, if_false]

theorem read_loop_at_end (uninit : Nat → Nat) (fuel : Nat) (k : Nat) (out : List command) :
    read_loop uninit fuel (stream_at []) k out = .loaded out := by
  rw [read_loop_not_good uninit fuel (stream_at []) k out rfl]
  rfl

theorem lines_length_le_text (lines : List Line) (k : Nat) (hn : numbered k lines = true) :
    lines.length ≤ (lines_text lines).length := by
  induction lines generalizing k with
  | nil => simp
  | cons l ls ih =>
    simp only [numbered, Bool.and_eq_true] at hn
    have h1 := ih (k + 1) hn.2
    have h2 : 1 ≤ l.text.length := by
      have := line_text_ne_nil l k hn.1
      cases h : l.text with
      | nil => exact absurd h this
      | cons c t => simp
    simp only [lines_text, List.length_append, List.length_cons]
    omega

theorem ofChars_lines (lines : List Line) (rest : List Char) (k : Nat)
    (hn : numbered k lines = true) (hne : lines ≠ []) :
    IStream.ofChars (lines_text lines ++ rest) = stream_at (lines_text lines ++ rest) := by
  cases lines with
  | nil => exact absurd rfl hne
  | cons l ls =>
    simp only [numbered, Bool.and_eq_true] at hn
    simp only [lines_text, List.append_assoc]
    rw [stream_at_append l.text _ (line_text_ne_nil l k hn.1)]

/-- Loading a text of well-formed records that ends right after the last token returns
the commands the records denote. -/
theorem read_program_lines (uninit : Nat → Nat) (lines : List Line)
    (hne : lines ≠ []) (hn : numbered 0 lines = true) (hs : separated lines = true)
    (hk : lines.length < SIZE_MOD) :
    read_program uninit (IStream.ofChars (lines_text lines)) =
      .loaded (lines.map Line.command) := by
  have hle := lines_length_le_text lines 0 hn
  have h0 := ofChars_lines lines [] 0 hn hne
  rw [List.append_nil] at h0
  unfold read_program
  rw [h0]
  have hf : (stream_at (lines_text lines)).buf.length + 1 =
      ((lines_text lines).length + 1 - lines.length) + lines.length := by
    simp only [stream_at]
    omega
  rw [hf]
  have h := read_loop_lines uninit ((lines_text lines).length + 1 - lines.length) []
    lines 0 [] (fun _ => rfl) hn hs (by omega)
  rw [List.append_nil] at h
  rw [h, read_loop_at_end, List.nil_append]


/-- After the well-formed records of a text the loop goes on, with at least one more
iteration allowed, on what follows them. -/
theorem read_program_after_lines (uninit : Nat → Nat) (lines : List Line)
    (rest : List Char) (hrest : rest ≠ [])
    (hr : lines ≠ [] → delimited rest = true)
    (hn : numbered 0 lines = true) (hs : separated lines = true)
    (hk : lines.length < SIZE_MOD) :
    ∃ fuel, read_program uninit (IStream.ofChars (lines_text lines ++ rest)) =
      read_loop uninit (fuel + 1) (IStream.ofChars rest) lines.length
        (lines.map Line.command) := by
  have hle := lines_length_le_text lines 0 hn
  have hrl : 1 ≤ rest.length := by
    cases rest with
    | nil => exact absurd rfl hrest
    | cons c t => simp
  have hso : stream_at rest = IStream.ofChars rest := by
    cases rest with
    | nil => exact absurd rfl hrest
    | cons c t => rfl
  have h0 : IStream.ofChars (lines_text lines ++ rest) =
      stream_at (lines_text lines ++ rest) := by
    cases lines with
    | nil => simpa [lines_text] using hso.symm
    | cons l ls => exact ofChars_lines (l :: ls) rest 0 hn (List.cons_ne_nil l ls)
  refine ⟨(lines_text lines ++ rest).length - lines.length, ?_⟩
  unfold read_program
  have hf : (IStream.ofChars (lines_text lines ++ rest)).buf.length + 1 =
      ((lines_text lines ++ rest).length - lines.length + 1) + lines.length := by
    simp only [IStream.ofChars, List.length_append]
    omega
  rw [hf, h0, read_loop_lines uninit _ rest lines 0 [] hr hn hs (by omega), hso]
  simp

theorem extract_string_blank (s : IStream) (old : List Char)
    (h : s.good = false ∨ all_space s.buf = true) : (extract_string s old).1 = old := by
  unfold extract_string
  by_cases hg : s.good = true
  · rcases h with h | h
    · rw [h] at hg
      cases hg
    · rw [sentry_at_end s hg h]
  · rw [sentry_not_good s (by simpa using hg)]

theorem read_value_blank (s : IStream)
    (h : s.good = false ∨ all_space s.buf = true) :
    (read_value s).1 = .error (.overflow_error "Value too high") := by
  unfold read_value extract_int32
  by_cases hg : s.good = true
  · rcases h with h | h
    · rw [h] at hg
      cases hg
    · rw [sentry_at_end s hg h]
      simp [IStream.fail]
  · rw [sentry_not_good s (by simpa using hg)]
    simp [IStream.fail]

theorem stream_at_blank (trailing : List Char) (h : all_space trailing = true) :
    (stream_at trailing).good = false ∨ all_space (stream_at trailing).buf = true := by
  cases trailing with
  | nil => exact Or.inl rfl
  | cons c t => exact Or.inr h

theorem all_space_ends_number (trailing : List Char) (h : all_space trailing = true) :
    ends_number trailing = true := by
  cases trailing with
  | nil => rfl
  | cons c t =>
    simp only [all_space, List.all_cons, Bool.and_eq_true] at h
    simp [ends_number, space_not_digit c h.1]

theorem all_space_delimited (trailing : List Char) (h : all_space trailing = true) :
    delimited trailing = true := by
  cases trailing with
  | nil => rfl
  | cons c t =>
    simp only [all_space, List.all_cons, Bool.and_eq_true] at h
    simpa [delimited] using h.1

/-- On a good stream that holds nothing but whitespace the line-number extraction fails
without assigning `c.line_number`, and the iteration throws: which exception depends on
the value the uninitialised field holds. -/
theorem read_loop_blank (uninit : Nat → Nat) (fuel : Nat) (s : IStream) (k : Nat)
    (out : List command) (hg : s.good = true) (hs : all_space s.buf = true) :
    read_loop uninit (fuel + 1) s k out =
      .thrown (.runtime_error
        (if uninit k = k then "Unknown instruction at line " ++ toString k
         else "Wrong line number " ++ toString (uninit k) ++ " expected " ++ toString k)) := by
  rw [read_loop]
  simp only [hg, if_true, extract_size_t, sentry_at_end s hg hs]
  by_cases hu : uninit k = k
  · have hb := extract_string_blank
      { s with buf := [], eofbit := true, failbit := true } [] (Or.inl rfl)
    simp only [hu, ne_eq, not_true_eq_false, if_false, if_true]
    generalize extract_string { s with buf := [], eofbit := true, failbit := true } [] = r
      at hb
    obtain ⟨name, in2⟩ := r
    simp only at hb
    subst hb
    simp only [instructions_at_nil]
  · simp only [hu, ne_eq, not_false_eq_true, if_true, if_false]


/-! ## Invariants of the loader -/

theorem sentry_false_fails (s s0 : IStream) (h : sentry s = (false, s0)) :
    s0.failbit = true := by
  unfold sentry at h
  split at h
  · split at h
    · cases h
      rfl
    · cases h
  · cases h
    rfl

theorem extract_int32_range (s : IStream) :
    (extract_int32 s).2.failbit = true ∨
      ∃ v, (extract_int32 s).1 = some v ∧ -(2 ^ 31) ≤ v ∧ v ≤ 2 ^ 31 - 1 := by
  unfold extract_int32
  cases hs : sentry s with
  | mk b s0 =>
    cases b with
    | false => exact Or.inl (sentry_false_fails s s0 hs)
    | true =>
      simp only
      generalize num_field s0.buf = nf
      obtain ⟨neg, ds, rest⟩ := nf
      simp only
      by_cases h1 : ds.isEmpty = true
      · simp only [h1, if_true]
        exact Or.inl trivial
      · simp only [h1, if_false, Bool.false_eq_true]
        generalize (if neg = true then -(decimal_value ds : Int) else (decimal_value ds : Int))
          = val
        by_cases h2 : val < -(2 ^ 31)
        · simp only [h2, if_true]
          exact Or.inl trivial
        · simp only [h2, if_false]
          by_cases h3 : 2 ^ 31 - 1 < val
          · simp only [h3, if_true]
            exact Or.inl trivial
          · simp only [h3, if_false]
            exact Or.inr ⟨val, rfl, by omega, by omega⟩

theorem read_value_ok_range (s s1 : IStream) (v : Int)
    (h : read_value s = (Except.ok v, s1)) : -(2 ^ 31) ≤ v ∧ v ≤ 2 ^ 31 - 1 := by
  unfold read_value at h
  have hr := extract_int32_range s
  generalize extract_int32 s = r at h hr
  obtain ⟨ov, s2⟩ := r
  simp only at h hr
  rcases hr with hf | ⟨w, hw, hlo, hhi⟩
  · simp [IStream.fail, hf] at h
  · subst hw
    split at h
    · cases h
    · cases h
      exact ⟨hlo, hhi⟩

/-- The shape of the commands `read_loop` writes through the output iterator: an
invariant that holds before the loop and is kept by appending a command whose line
number is the counter and whose operand is present exactly for PUSH, POP and ROT (and is
then an `int32_t`), holds for what the loop returns, together with a stream that is no
longer good. -/
theorem read_loop_invariant (uninit : Nat → Nat)
    (P : Nat → IStream → Nat → List command → Prop)
    (hstep : ∀ (fuel : Nat) (s s1 : IStream) (k : Nat) (out : List command)
      (instr : instruction) (v : Option Int), s.good = true → P (fuel + 1) s k out →
      v.isSome = value_instructions instr →
      (∀ x, v = some x → -(2 ^ 31) ≤ x ∧ x ≤ 2 ^ 31 - 1) →
      P fuel s1 ((k + 1) % SIZE_MOD) (out ++ [⟨k, instr, v⟩]))
    (fuel : Nat) (s : IStream) (k : Nat) (out cmds : List command)
    (h : read_loop uninit fuel s k out = .loaded cmds) (hP : P fuel s k out) :
    ∃ fuel1 s1 k1, s1.good = false ∧ P fuel1 s1 k1 cmds := by
  induction fuel generalizing s k out with
  | zero =>
    rw [read_loop.eq_def] at h
    by_cases hg : s.good = true
    · simp [hg] at h
    · simp only [hg, Bool.false_eq_true, if_false] at h
      split at h
      · cases h
        exact ⟨0, s, k, by simpa using hg, hP⟩
      · cases h
  | succ n ih =>
    rw [read_loop.eq_def] at h
    by_cases hg : s.good = true
    · simp only [hg, if_true] at h
      generalize extract_size_t s (uninit k) = r1 at h
      obtain ⟨c_line_number, in1⟩ := r1
      simp only at h
      split at h
      · cases h
      · rename_i hc
        have hck : c_line_number = k := by
          by_contra hne
          exact hc hne
        subst hck
        generalize extract_string in1 [] = r2 at h
        obtain ⟨name, in2⟩ := r2
        simp only at h
        split at h
        · cases h
        · rename_i instr hi
          split at h
          · rename_i hvi
            generalize hrv : read_value in2 = r3 at h
            obtain ⟨res, in3⟩ := r3
            cases res with
            | error e => cases h
            | ok v =>
              simp only at h
              exact ih in3 _ _ h
                (hstep n s in3 c_line_number out instr (some v) hg hP (by simp [hvi])
                  (by
                    intro x hx
                    cases hx
                    exact read_value_ok_range in2 in3 v hrv))
          · rename_i hvi
            exact ih in2 _ _ h
              (hstep n s in2 c_line_number out instr none hg hP (by simp [hvi])
                (by intro x hx; cases hx))
    · simp only [hg, Bool.false_eq_true, if_false] at h
      split at h
      · cases h
        exact ⟨n + 1, s, k, by simpa using hg, hP⟩
      · cases h


/-! ## Records that are cut short or malformed -/

theorem line_start_spec (k : Nat) (lead number : List Char)
    (h : line_start k lead number = true) :
    all_space lead = true ∧ number ≠ [] ∧ all_digits number = true ∧
      decimal_value number = k := by
  simp only [line_start, Bool.and_eq_true, Bool.not_eq_true', decide_eq_true_eq] at h
  refine ⟨h.1.1.1, ?_, h.1.2, h.2⟩
  intro e
  rw [e] at h
  simp at h

theorem follows_delimited (lines : List Line) (lead rest : List Char)
    (hf : follows lines lead = true) (hl : all_space lead = true) :
    lines ≠ [] → delimited (lead ++ rest) = true := by
  intro hne
  have h1 : lines.isEmpty = false := by
    cases lines with
    | nil => exact absurd rfl hne
    | cons _ _ => rfl
  simp only [follows, h1, Bool.false_or, Bool.not_eq_true'] at hf
  exact delimited_of_space lead rest hf hl

theorem start_ne_nil (lead number rest : List Char) (hne : number ≠ []) :
    lead ++ (number ++ rest) ≠ [] := by
  intro e
  simp only [List.append_eq_nil] at e
  exact hne e.2.1

theorem read_loop_number_only (uninit : Nat → Nat) (fuel k : Nat) (out : List command)
    (lead number trailing : List Char) (hk : k < SIZE_MOD)
    (hst : line_start k lead number = true) (ht : all_space trailing = true) :
    read_loop uninit (fuel + 1) (IStream.ofChars (lead ++ (number ++ trailing))) k out =
      .thrown (.runtime_error ("Unknown instruction at line " ++ toString k)) := by
  obtain ⟨hl, hne, hd, hv⟩ := line_start_spec k lead number hst
  have hnot : ¬ (decimal_value number ≠ k) := by simp [hv]
  have e1 := extract_size_t_number lead number trailing (uninit k) hl hne hd (by omega)
    (all_space_ends_number trailing ht)
  have hb := extract_string_blank (stream_at trailing) [] (stream_at_blank trailing ht)
  rw [read_loop_good]
  simp only [e1, hnot, if_false]
  generalize extract_string (stream_at trailing) [] = r at hb
  obtain ⟨name, in2⟩ := r
  simp only at hb
  subst hb
  simp only [instructions_at_nil]

theorem read_loop_operand_missing (uninit : Nat → Nat) (fuel k : Nat) (out : List command)
    (lead number gap trailing : List Char) (instr : instruction) (hk : k < SIZE_MOD)
    (hst : line_start k lead number = true)
    (hg : (!gap.isEmpty && all_space gap) = true)
    (hi : value_instructions instr = true) (ht : all_space trailing = true) :
    read_loop uninit (fuel + 1)
        (IStream.ofChars (lead ++ (number ++ (gap ++
          ((instruction_name instr).toList ++ trailing))))) k out =
      .thrown (.overflow_error "Value too high") := by
  obtain ⟨hl, hne, hd, hv⟩ := line_start_spec k lead number hst
  simp only [Bool.and_eq_true, Bool.not_eq_true'] at hg
  have hgne : gap ≠ [] := by
    intro e
    rw [e] at hg
    simp at hg
  have hnot : ¬ (decimal_value number ≠ k) := by simp [hv]
  have e1 := extract_size_t_number lead number
    (gap ++ ((instruction_name instr).toList ++ trailing)) (uninit k) hl hne hd (by omega)
    (delimited_ends_number _ (delimited_of_space gap _ hg.1 hg.2))
  rw [stream_at_append gap _ hgne] at e1
  have e2 := extract_string_token gap (instruction_name instr).toList trailing []
    hg.2 (name_ne_nil instr) (name_no_space instr) (all_space_delimited trailing ht)
  have hb := read_value_blank (stream_at trailing) (stream_at_blank trailing ht)
  rw [read_loop_good]
  simp only [e1, hnot, if_false, e2, instructions_at_name, hi, if_true]
  generalize read_value (stream_at trailing) = r at hb
  obtain ⟨res, in3⟩ := r
  simp only at hb
  subst hb
  rfl

theorem read_loop_wrong_number (uninit : Nat → Nat) (fuel k : Nat) (out : List command)
    (lead number r1 : List Char)
    (hst : line_start (decimal_value number) lead number = true)
    (hm : decimal_value number < SIZE_MOD) (hne : decimal_value number ≠ k)
    (he : ends_number r1 = true) :
    read_loop uninit (fuel + 1) (IStream.ofChars (lead ++ (number ++ r1))) k out =
      .thrown (.runtime_error ("Wrong line number " ++ toString (decimal_value number) ++
        " expected " ++ toString k)) := by
  obtain ⟨hl, hnn, hd, _⟩ := line_start_spec _ lead number hst
  have e1 := extract_size_t_number lead number r1 (uninit k) hl hnn hd hm he
  rw [read_loop_good]
  simp only [e1, hne, ne_eq, not_false_eq_true, if_true]

theorem read_loop_unknown_name (uninit : Nat → Nat) (fuel k : Nat) (out : List command)
    (lead number gap tok r2 : List Char) (hk : k < SIZE_MOD)
    (hst : line_start k lead number = true)
    (hg : (!gap.isEmpty && all_space gap) = true)
    (htok : (!tok.isEmpty && no_space tok) = true)
    (hun : instructions_at (String.mk tok) = none)
    (hr : delimited r2 = true) :
    read_loop uninit (fuel + 1)
        (IStream.ofChars (lead ++ (number ++ (gap ++ (tok ++ r2))))) k out =
      .thrown (.runtime_error ("Unknown instruction at line " ++ toString k)) := by
  obtain ⟨hl, hne, hd, hv⟩ := line_start_spec k lead number hst
  simp only [Bool.and_eq_true, Bool.not_eq_true'] at hg htok
  have hgne : gap ≠ [] := by
    intro e
    rw [e] at hg
    simp at hg
  have htne : tok ≠ [] := by
    intro e
    rw [e] at htok
    simp at htok
  have hnot : ¬ (decimal_value number ≠ k) := by simp [hv]
  have e1 := extract_size_t_number lead number (gap ++ (tok ++ r2)) (uninit k) hl hne hd
    (by omega) (delimited_ends_number _ (delimited_of_space gap _ hg.1 hg.2))
  rw [stream_at_append gap _ hgne] at e1
  have e2 := extract_string_token gap tok r2 [] hg.2 htne htok.2 hr
  rw [read_loop_good]
  simp only [e1, hnot, if_false, e2, hun]


/-! ## C8: end of the stream after the last record -/

/-- Whitespace between the last record and the end of the stream makes `read_program`
throw: the loop starts another iteration, whose line-number extraction fails. -/
theorem read_program_trailing_space (uninit : Nat → Nat) (lines : List Line)
    (trailing : List Char) (hne : trailing ≠ []) (ht : all_space trailing = true)
    (hn : numbered 0 lines = true) (hs : separated lines = true)
    (hk : lines.length < SIZE_MOD) :
    read_program uninit (IStream.ofChars (lines_text lines ++ trailing)) =
      .thrown (.runtime_error
        (if uninit lines.length = lines.length then
           "Unknown instruction at line " ++ toString lines.length
         else "Wrong line number " ++ toString (uninit lines.length) ++ " expected " ++
           toString lines.length)) := by
  obtain ⟨fuel, hf⟩ := read_program_after_lines uninit lines trailing hne
    (fun _ => all_space_delimited trailing ht) hn hs hk
  rw [hf]
  exact read_loop_blank uninit fuel (IStream.ofChars trailing) lines.length _ rfl ht

/-- C8 at the failing input: the text `0 READ` is loaded as one command when the stream
ends right after the last token, and the same text followed by a line terminator is
rejected, whatever the uninitialised `c.line_number` holds in the extra iteration. -/
theorem C8_trailing_newline_is_rejected (uninit : Nat → Nat) :
    read_program uninit (IStream.ofChars "0 READ".toList) = .loaded [⟨0, .READ, none⟩] ∧
      read_program uninit (IStream.ofChars "0 READ\n".toList) =
        .thrown (.runtime_error
          (if uninit 1 = 1 then "Unknown instruction at line " ++ toString 1
           else "Wrong line number " ++ toString (uninit 1) ++ " expected " ++ toString 1)) := by
  constructor
  · exact read_program_lines uninit read_line (by decide) (by decide) (by decide)
      (by simp [read_line, SIZE_MOD])
  · exact read_program_trailing_space uninit read_line "\n".toList (by decide) (by decide)
      (by decide) (by decide) (by simp [read_line, SIZE_MOD])

/-! ## C9: end of the stream inside a record -/

/-- C9: after any number of well-formed records, a record that ends after its line number
(followed at most by whitespace) makes `read_program` throw "Unknown instruction at line
k", and a record that ends after the name PUSH, POP or ROT (followed at most by
whitespace) makes it throw `overflow_error`; no program is returned. -/
theorem C9_truncated_record_is_rejected (uninit : Nat → Nat) (lines : List Line)
    (lead number gap trailing : List Char) (instr : instruction)
    (hn : numbered 0 lines = true) (hs : separated lines = true)
    (hk : lines.length < SIZE_MOD)
    (hf : follows lines lead = true)
    (hst : line_start lines.length lead number = true)
    (hg : (!gap.isEmpty && all_space gap) = true)
    (hi : value_instructions instr = true)
    (ht : all_space trailing = true) :
    read_program uninit (IStream.ofChars (lines_text lines ++ (lead ++ (number ++ trailing))))
        = .thrown (.runtime_error ("Unknown instruction at line " ++ toString lines.length)) ∧
      read_program uninit (IStream.ofChars (lines_text lines ++
          (lead ++ (number ++ (gap ++ ((instruction_name instr).toList ++ trailing))))))
        = .thrown (.overflow_error "Value too high") := by
  obtain ⟨hl, hne, _, _⟩ := line_start_spec _ lead number hst
  constructor
  · obtain ⟨fuel, h⟩ := read_program_after_lines uninit lines (lead ++ (number ++ trailing))
      (start_ne_nil lead number trailing hne) (follows_delimited lines lead _ hf hl) hn hs hk
    rw [h]
    exact read_loop_number_only uninit fuel _ _ lead number trailing hk hst ht
  · obtain ⟨fuel, h⟩ := read_program_after_lines uninit lines
      (lead ++ (number ++ (gap ++ ((instruction_name instr).toList ++ trailing))))
      (start_ne_nil lead number _ hne) (follows_delimited lines lead _ hf hl) hn hs hk
    rw [h]
    exact read_loop_operand_missing uninit fuel _ _ lead number gap trailing instr hk hst hg
      hi ht

/-- C9 at a concrete text: `0 PUSH 10`, `1 SUB`, then `2` alone, and then `2 ROT` alone. -/
theorem C9_truncated_record_is_rejected_witness :
    read_program (fun _ => 0) (IStream.ofChars (lines_text sample_lines ++
          ("\n".toList ++ ("2".toList ++ []))))
        = .thrown (.runtime_error
            ("Unknown instruction at line " ++ toString sample_lines.length)) ∧
      read_program (fun _ => 0) (IStream.ofChars (lines_text sample_lines ++
          ("\n".toList ++ ("2".toList ++ (" ".toList ++
            ((instruction_name .ROT).toList ++ []))))))
        = .thrown (.overflow_error "Value too high") :=
  C9_truncated_record_is_rejected (fun _ => 0) sample_lines "\n".toList "2".toList
    " ".toList [] .ROT (by decide) (by decide) (by simp [sample_lines, SIZE_MOD])
    (by decide) (by decide) (by decide) (by decide) (by decide)

/-! ## C10: wrong line number -/

/-- C10: after k well-formed records, a record whose line-number token is a decimal
number m different from k makes `read_program` throw "Wrong line number m expected k". -/
theorem C10_wrong_line_number_is_rejected (uninit : Nat → Nat) (lines : List Line)
    (lead number r1 : List Char)
    (hn : numbered 0 lines = true) (hs : separated lines = true)
    (hk : lines.length < SIZE_MOD)
    (hf : follows lines lead = true)
    (hst : line_start (decimal_value number) lead number = true)
    (hm : decimal_value number < SIZE_MOD)
    (hne : decimal_value number ≠ lines.length)
    (he : ends_number r1 = true) :
    read_program uninit (IStream.ofChars (lines_text lines ++ (lead ++ (number ++ r1)))) =
      .thrown (.runtime_error ("Wrong line number " ++ toString (decimal_value number) ++
        " expected " ++ toString lines.length)) := by
  obtain ⟨hl, hnn, _, _⟩ := line_start_spec _ lead number hst
  obtain ⟨fuel, h⟩ := read_program_after_lines uninit lines (lead ++ (number ++ r1))
    (start_ne_nil lead number r1 hnn) (follows_delimited lines lead _ hf hl) hn hs hk
  rw [h]
  exact read_loop_wrong_number uninit fuel _ _ lead number r1 hst hm hne he

/-- C10 at a concrete text: the first line numbered 1, `1 READ`. -/
theorem C10_wrong_line_number_is_rejected_witness :
    read_program (fun _ => 0) (IStream.ofChars (lines_text [] ++
        ([] ++ ("1".toList ++ " READ".toList)))) =
      .thrown (.runtime_error ("Wrong line number " ++ toString (decimal_value "1".toList) ++
        " expected " ++ toString ([] : List Line).length)) :=
  C10_wrong_line_number_is_rejected (fun _ => 0) [] [] "1".toList " READ".toList
    (by decide) (by decide) (by simp [SIZE_MOD]) (by decide) (by decide)
    (by simp [SIZE_MOD, decimal_value]) (by decide) (by decide)

/-! ## C13: unknown instruction name -/

/-- C13: after k well-formed records, a record with the line number k followed by a token
that is not one of the thirteen names makes `read_program` throw "Unknown instruction at
line k". -/
theorem C13_unknown_name_is_rejected (uninit : Nat → Nat) (lines : List Line)
    (lead number gap tok r2 : List Char)
    (hn : numbered 0 lines = true) (hs : separated lines = true)
    (hk : lines.length < SIZE_MOD)
    (hf : follows lines lead = true)
    (hst : line_start lines.length lead number = true)
    (hg : (!gap.isEmpty && all_space gap) = true)
    (htok : (!tok.isEmpty && no_space tok) = true)
    (hun : instructions_at (String.mk tok) = none)
    (hr : delimited r2 = true) :
    read_program uninit (IStream.ofChars (lines_text lines ++
        (lead ++ (number ++ (gap ++ (tok ++ r2)))))) =
      .thrown (.runtime_error ("Unknown instruction at line " ++ toString lines.length)) := by
  obtain ⟨hl, hne, _, _⟩ := line_start_spec _ lead number hst
  obtain ⟨fuel, h⟩ := read_program_after_lines uninit lines
    (lead ++ (number ++ (gap ++ (tok ++ r2))))
    (start_ne_nil lead number _ hne) (follows_delimited lines lead _ hf hl) hn hs hk
  rw [h]
  exact read_loop_unknown_name uninit fuel _ _ lead number gap tok r2 hk hst hg htok hun hr

/-- C13 at a concrete text: `0 PUSH 10`, `1 SUB`, then `2 push 1` in lower case. -/
theorem C13_unknown_name_is_rejected_witness :
    read_program (fun _ => 0) (IStream.ofChars (lines_text sample_lines ++
        ("\n".toList ++ ("2".toList ++ (" ".toList ++ ("push".toList ++ " 1".toList)))))) =
      .thrown (.runtime_error
        ("Unknown instruction at line " ++ toString sample_lines.length)) :=
  C13_unknown_name_is_rejected (fun _ => 0) sample_lines "\n".toList "2".toList " ".toList
    "push".toList " 1".toList (by decide) (by decide) (by simp [sample_lines, SIZE_MOD])
    (by decide) (by decide) (by decide) (by decide) (by decide) (by decide)


/-! ## C11, C12, C20: what a successful load returns -/

/-- C11: for every stream (shorter than the range of `size_t`) on which `read_program`
succeeds, the command at zero-based position i of the output has `line_number = i`. -/
theorem C11_line_number_is_position (uninit : Nat → Nat) (input : IStream)
    (cmds : List command)
    (hlen : input.buf.length + 1 < SIZE_MOD)
    (h : read_program uninit input = .loaded cmds) :
    ∀ (i : Nat) (c : command), cmds[i]? = some c → c.line_number = i := by
  have key := read_loop_invariant uninit
    (fun fuel _ k out => k = out.length ∧ out.length + fuel < SIZE_MOD ∧
      ∀ (i : Nat) (c : command), out[i]? = some c → c.line_number = i)
    (by
      intro fuel s s1 k out instr v _ hP _ _
      obtain ⟨hk, hb, hall⟩ := hP
      refine ⟨?_, ?_, ?_⟩
      · rw [List.length_append, List.length_singleton, hk]
        exact Nat.mod_eq_of_lt (by omega)
      · rw [List.length_append, List.length_singleton]
        omega
      · intro i c hc
        rcases Nat.lt_or_ge i out.length with hi | hi
        · rw [List.getElem?_append_left hi] at hc
          exact hall i c hc
        · rw [List.getElem?_append_right hi] at hc
          rcases Nat.eq_zero_or_pos (i - out.length) with h0 | h0
          · rw [h0] at hc
            simp only [List.getElem?_cons_zero, Option.some.injEq] at hc
            subst hc
            simp only
            omega
          · have hnone : ([({ line_number := k, instruction := instr, value := v } :
                command)])[i - out.length]? = none :=
              List.getElem?_eq_none (by simp only [List.length_singleton]; omega)
            rw [hnone] at hc
            cases hc)
    (input.buf.length + 1) input 0 [] cmds h
    ⟨rfl, by simpa using hlen, by intro i c hc; simp at hc⟩
  obtain ⟨_, _, _, _, _, _, hall⟩ := key
  exact hall

/-- C11 at a concrete text: `0 READ` is loaded as one command, whose line number is its
position 0. -/
theorem C11_line_number_is_position_witness :
    read_program (fun _ => 0) (IStream.ofChars "0 READ".toList) =
        .loaded [⟨0, .READ, none⟩] ∧
      (⟨0, .READ, none⟩ : command).line_number = 0 :=
  ⟨read_program_lines (fun _ => 0) read_line (by decide) (by decide) (by decide)
      (by simp [read_line, SIZE_MOD]),
    C11_line_number_is_position (fun _ => 0) (IStream.ofChars "0 READ".toList)
      [⟨0, .READ, none⟩] (by simp [IStream.ofChars, SIZE_MOD])
      (read_program_lines (fun _ => 0) read_line (by decide) (by decide) (by decide)
        (by simp [read_line, SIZE_MOD]))
      0 ⟨0, .READ, none⟩ rfl⟩

theorem value_instructions_iff (i : instruction) :
    value_instructions i = true ↔ i = .PUSH ∨ i = .POP ∨ i = .ROT := by
  cases i <;> simp [value_instructions]

/-- C12: for every stream on which `read_program` succeeds and every command of the
output, the operand is present if and only if the instruction is PUSH, POP or ROT. -/
theorem C12_operand_iff_value_instruction (uninit : Nat → Nat) (input : IStream)
    (cmds : List command) (h : read_program uninit input = .loaded cmds) :
    ∀ c ∈ cmds, (c.value.isSome = true ↔
      c.instruction = .PUSH ∨ c.instruction = .POP ∨ c.instruction = .ROT) := by
  have key := read_loop_invariant uninit
    (fun _ _ _ out => ∀ c ∈ out, c.value.isSome = value_instructions c.instruction)
    (by
      intro fuel s s1 k out instr v _ hP hv _ c hc
      rcases List.mem_append.mp hc with h1 | h1
      · exact hP c h1
      · simp only [List.mem_singleton] at h1
        subst h1
        exact hv)
    (input.buf.length + 1) input 0 [] cmds h (by intro c hc; simp at hc)
  obtain ⟨_, _, _, _, hall⟩ := key
  intro c hc
  rw [hall c hc]
  exact value_instructions_iff c.instruction

/-- C12 at a concrete text: `0 PUSH 10`, `1 SUB` is loaded, and its first command PUSH 10
has an operand and is a PUSH. -/
theorem C12_operand_iff_value_instruction_witness :
    read_program (fun _ => 0) (IStream.ofChars (lines_text sample_lines)) =
        .loaded (sample_lines.map Line.command) ∧
      ((⟨0, .PUSH, some 10⟩ : command).value.isSome = true ↔
        (⟨0, .PUSH, some 10⟩ : command).instruction = .PUSH ∨
          (⟨0, .PUSH, some 10⟩ : command).instruction = .POP ∨
          (⟨0, .PUSH, some 10⟩ : command).instruction = .ROT) :=
  ⟨read_program_lines (fun _ => 0) sample_lines (by decide) (by decide) (by decide)
      (by simp [sample_lines, SIZE_MOD]),
    C12_operand_iff_value_instruction (fun _ => 0)
      (IStream.ofChars (lines_text sample_lines)) (sample_lines.map Line.command)
      (read_program_lines (fun _ => 0) sample_lines (by decide) (by decide) (by decide)
        (by simp [sample_lines, SIZE_MOD]))
      ⟨0, .PUSH, some 10⟩ (by decide)⟩

/-- A successful load of a fresh stream yields at least one command, and a fresh stream
that holds nothing but whitespace is rejected. -/
theorem read_program_fresh (uninit : Nat → Nat) (text : List Char) :
    (all_space text = true → ∃ e, read_program uninit (IStream.ofChars text) = .thrown e) ∧
      (∀ cmds, read_program uninit (IStream.ofChars text) = .loaded cmds → cmds ≠ []) := by
  constructor
  · intro ht
    exact ⟨_, read_loop_blank uninit text.length (IStream.ofChars text) 0 [] rfl ht⟩
  · intro cmds h
    have key := read_loop_invariant uninit
      (fun _ s _ out => s.good = true ∨ out ≠ [])
      (by
        intro fuel s s1 k out instr v _ _ _ _
        exact Or.inr (by simp))
      ((IStream.ofChars text).buf.length + 1) (IStream.ofChars text) 0 [] cmds h
      (Or.inl rfl)
    obtain ⟨_, s1, _, hg, hP⟩ := key
    rcases hP with hP | hP
    · rw [hg] at hP
      cases hP
    · exact hP

/-- C20 at the failing input, the empty stream: the failed line-number extraction stores
nothing, so the comparison with the counter reads `c.line_number` as `command c;` left it.
When the field holds 5 the load throws "Wrong line number 5 expected 0"; the message
"Unknown instruction at line 0" of the claim appears when the field holds 0. In every
case a stream of whitespace only is rejected and a successful load of a fresh stream
yields at least one command. -/
theorem C20_empty_stream_is_rejected :
    read_program (fun _ => 5) (IStream.ofChars []) =
        .thrown (.runtime_error "Wrong line number 5 expected 0") ∧
      read_program (fun _ => 0) (IStream.ofChars []) =
        .thrown (.runtime_error "Unknown instruction at line 0") ∧
      (∀ (uninit : Nat → Nat) (text : List Char), all_space text = true →
        ∃ e, read_program uninit (IStream.ofChars text) = .thrown e) ∧
      (∀ (uninit : Nat → Nat) (text : List Char) (cmds : List command),
        read_program uninit (IStream.ofChars text) = .loaded cmds → cmds ≠ []) := by
  refine ⟨by decide, by decide, ?_, ?_⟩
  · intro uninit text ht
    exact (read_program_fresh uninit text).1 ht
  · intro uninit text cmds h
    exact (read_program_fresh uninit text).2 cmds h

/-! ## C14: operands -/

theorem takeWhile_digit_head (t : List Char)
    (h : (match t with
          | [] => false
          | d :: _ => isdigit d) = false) : t.takeWhile isdigit = [] := by
  cases t with
  | nil => rfl
  | cons d ds =>
    simp only at h
    simp [List.takeWhile, h]

theorem num_field_no_digits (r : List Char) (h : starts_number r = false) :
    (num_field r).2.1 = [] := by
  cases r with
  | nil => rfl
  | cons c t =>
    simp only [starts_number] at h
    by_cases h1 : c = '-'
    · subst h1
      simp only [true_or, if_true] at h
      simp only [num_field]
      exact takeWhile_digit_head t h
    · by_cases h2 : c = '+'
      · subst h2
        simp only [or_true, if_true] at h
        simp only [num_field]
        exact takeWhile_digit_head t h
      · simp only [h1, h2, or_self, if_false] at h
        unfold num_field
        split
        · rename_i t1 heq
          simp only [List.cons.injEq] at heq
          exact absurd heq.1 h1
        · rename_i t1 heq
          simp only [List.cons.injEq] at heq
          exact absurd heq.1 h2
        · simp [List.takeWhile, h]

theorem read_value_not_number (gap2 t : List Char) (c : Char)
    (hg : all_space gap2 = true) (hc : isspace c = false)
    (hnum : starts_number (c :: t) = false) :
    (read_value (IStream.ofChars (gap2 ++ c :: t))).1 =
      .error (.overflow_error "Value too high") := by
  have hnf := num_field_no_digits (c :: t) hnum
  unfold read_value extract_int32
  rw [sentry_skips gap2 t c hg hc]
  simp only [IStream.ofChars]
  generalize num_field (c :: t) = nf at hnf
  obtain ⟨neg, ds, rest⟩ := nf
  simp only at hnf
  subst hnf
  simp [IStream.fail]

theorem read_value_out_of_range (o : Operand) (r3 : List Char)
    (hw : o.out_of_range = true) (he : ends_number r3 = true) :
    (read_value (IStream.ofChars (o.gap ++ (o.token ++ r3)))).1 =
      .error (.overflow_error "Value too high") := by
  obtain ⟨gap, minus, digits⟩ := o
  simp only [Operand.out_of_range, Bool.and_eq_true, Bool.not_eq_true', Bool.or_eq_true,
    decide_eq_true_eq] at hw
  obtain ⟨⟨⟨⟨hg1, hg2⟩, hd1⟩, hd2⟩, hrange⟩ := hw
  have hdne : digits ≠ [] := by
    intro e
    subst e
    cases hd1
  unfold read_value extract_int32
  cases minus with
  | false =>
    obtain ⟨c, t, hct, hc⟩ := digits_head_not_space digits r3 hdne hd2
    simp only [Operand.value, Bool.false_eq_true, if_false] at hrange
    simp only [Operand.token, Bool.false_eq_true, if_false, List.nil_append]
    rw [hct, sentry_skips gap t c hg2 hc, ← hct]
    simp only [IStream.ofChars, num_field_digits digits r3 hdne hd2 he, hd1,
      Bool.false_eq_true, if_false]
    rcases hrange with h | h
    · rw [if_pos h]
      rfl
    · by_cases h0 : (decimal_value digits : Int) < -(2 ^ 31)
      · rw [if_pos h0]
        rfl
      · rw [if_neg h0, if_pos h]
        rfl
  | true =>
    simp only [Operand.value, if_true] at hrange
    simp only [Operand.token, if_true, List.cons_append, List.nil_append]
    rw [sentry_skips gap (digits ++ r3) '-' hg2 (by decide)]
    simp only [IStream.ofChars, num_field_minus digits r3 hd2 he, hd1,
      Bool.false_eq_true, if_false, if_true]
    rcases hrange with h | h
    · rw [if_pos h]
      rfl
    · by_cases h0 : -(decimal_value digits : Int) < -(2 ^ 31)
      · rw [if_pos h0]
        rfl
      · rw [if_neg h0, if_pos h]
        rfl

theorem read_loop_bad_operand (uninit : Nat → Nat) (fuel k : Nat) (out : List command)
    (lead number gap r2 : List Char) (instr : instruction) (hk : k < SIZE_MOD)
    (hst : line_start k lead number = true)
    (hg : (!gap.isEmpty && all_space gap) = true)
    (hi : value_instructions instr = true)
    (hne2 : r2 ≠ []) (hdel : delimited r2 = true)
    (hbad : (read_value (IStream.ofChars r2)).1 = .error (.overflow_error "Value too high")) :
    read_loop uninit (fuel + 1)
        (IStream.ofChars (lead ++ (number ++ (gap ++
          ((instruction_name instr).toList ++ r2))))) k out =
      .thrown (.overflow_error "Value too high") := by
  obtain ⟨hl, hne, hd, hv⟩ := line_start_spec k lead number hst
  simp only [Bool.and_eq_true, Bool.not_eq_true'] at hg
  have hgne : gap ≠ [] := by
    intro e
    rw [e] at hg
    simp at hg
  have hnot : ¬ (decimal_value number ≠ k) := by simp [hv]
  have e1 := extract_size_t_number lead number
    (gap ++ ((instruction_name instr).toList ++ r2)) (uninit k) hl hne hd (by omega)
    (delimited_ends_number _ (delimited_of_space gap _ hg.1 hg.2))
  rw [stream_at_append gap _ hgne] at e1
  have e2 := extract_string_token gap (instruction_name instr).toList r2 []
    hg.2 (name_ne_nil instr) (name_no_space instr) hdel
  have hso : stream_at r2 = IStream.ofChars r2 := by
    cases r2 with
    | nil => exact absurd rfl hne2
    | cons c t => rfl
  rw [read_loop_good]
  simp only [e1, hnot, if_false, e2, instructions_at_name, hi, if_true, hso]
  generalize read_value (IStream.ofChars r2) = r at hbad
  obtain ⟨res, in3⟩ := r
  simp only at hbad
  subst hbad
  rfl


theorem numbered_getElem (lines : List Line) (k i : Nat) (l : Line)
    (hn : numbered k lines = true) (hl : lines[i]? = some l) :
    l.well_formed (k + i) = true := by
  induction lines generalizing k i with
  | nil => simp at hl
  | cons a as ih =>
    simp only [numbered, Bool.and_eq_true] at hn
    cases i with
    | zero =>
      simp only [List.getElem?_cons_zero, Option.some.injEq] at hl
      subst hl
      exact hn.1
    | succ j =>
      simp only [List.getElem?_cons_succ] at hl
      have := ih (k + 1) j hn.2 hl
      have e : k + (j + 1) = k + 1 + j := by omega
      rw [e]
      exact this

theorem operand_range (l : Line) (k : Nat) (o : Operand)
    (hw : l.well_formed k = true) (ho : l.operand = some o) :
    -(2 ^ 31) ≤ o.value ∧ o.value ≤ 2 ^ 31 - 1 := by
  simp only [Line.well_formed, ho, Bool.and_eq_true, Operand.well_formed,
    decide_eq_true_eq] at hw
  exact ⟨hw.2.2.1.2, hw.2.2.2⟩

theorem read_loop_operand_record (uninit : Nat → Nat) (fuel k : Nat) (out : List command)
    (lead number gap rest : List Char) (instr : instruction) (o : Operand)
    (hk : k < SIZE_MOD)
    (hst : line_start k lead number = true)
    (hg : (!gap.isEmpty && all_space gap) = true)
    (hi : value_instructions instr = true)
    (ho : o.well_formed = true) (he : ends_number rest = true) :
    read_loop uninit (fuel + 1)
        (IStream.ofChars (lead ++ (number ++ (gap ++
          ((instruction_name instr).toList ++ (o.gap ++ (o.token ++ rest))))))) k out =
      read_loop uninit fuel (stream_at rest) ((k + 1) % SIZE_MOD)
        (out ++ [{ line_number := k, instruction := instr, value := some o.value }]) := by
  obtain ⟨hl, hne, hd, hv⟩ := line_start_spec k lead number hst
  simp only [Bool.and_eq_true, Bool.not_eq_true'] at hg
  have hgne : gap ≠ [] := by
    intro e
    rw [e] at hg
    simp at hg
  have ho2 := ho
  simp only [Operand.well_formed, Bool.and_eq_true, Bool.not_eq_true'] at ho2
  have hone : o.gap ≠ [] := by
    intro e
    rw [e] at ho2
    simp at ho2
  have hnot : ¬ (decimal_value number ≠ k) := by simp [hv]
  have e1 := extract_size_t_number lead number
    (gap ++ ((instruction_name instr).toList ++ (o.gap ++ (o.token ++ rest)))) (uninit k)
    hl hne hd (by omega) (delimited_ends_number _ (delimited_of_space gap _ hg.1 hg.2))
  rw [stream_at_append gap _ hgne] at e1
  have e2 := extract_string_token gap (instruction_name instr).toList
    (o.gap ++ (o.token ++ rest)) [] hg.2 (name_ne_nil instr) (name_no_space instr)
    (delimited_of_space o.gap _ ho2.1.1.1.1.1 ho2.1.1.1.1.2)
  rw [stream_at_append o.gap _ hone] at e2
  have e3 := read_value_operand o rest ho he
  rw [read_loop_good]
  simp only [e1, hnot, if_false, e2, instructions_at_name, hi, if_true, e3, hv, ne_eq,
    not_true_eq_false]

theorem extract_size_t_reads (c : Char) (t : List Char) (old : Nat)
    (hc : isspace c = false) :
    (extract_size_t (IStream.ofChars (c :: t)) old).1 = line_number_read (c :: t) := by
  have hs := sentry_skips [] t c rfl hc
  rw [List.nil_append] at hs
  unfold extract_size_t line_number_read
  rw [hs]
  simp only [IStream.ofChars]
  generalize num_field (c :: t) = nf
  obtain ⟨neg, ds, rest⟩ := nf
  simp only
  split
  · rfl
  · split
    · rfl
    · rfl

theorem read_loop_next_number_wrong (uninit : Nat → Nat) (fuel k : Nat)
    (out : List command) (c : Char) (t : List Char)
    (hc : isspace c = false) (hne : line_number_read (c :: t) ≠ k) :
    read_loop uninit (fuel + 1) (IStream.ofChars (c :: t)) k out =
      .thrown (.runtime_error ("Wrong line number " ++ toString (line_number_read (c :: t))
        ++ " expected " ++ toString k)) := by
  have hv := extract_size_t_reads c t (uninit k) hc
  rw [read_loop_good]
  generalize extract_size_t (IStream.ofChars (c :: t)) (uninit k) = r at hv
  obtain ⟨c_line_number, in1⟩ := r
  simp only at hv
  subst hv
  simp only [hne, ne_eq, not_false_eq_true, if_true]

theorem line_number_read_no_number (r : List Char) (h : starts_number r = false) :
    line_number_read r = 0 := by
  have hnf := num_field_no_digits r h
  unfold line_number_read
  generalize num_field r = nf at hnf
  obtain ⟨neg, ds, rest⟩ := nf
  simp only at hnf
  subst hnf
  rfl

/-- After the well-formed records of a text the loop goes on with at least as many
iterations allowed as there are characters left. -/
theorem read_program_after_lines_bound (uninit : Nat → Nat) (lines : List Line)
    (rest : List Char) (hrest : rest ≠ [])
    (hr : lines ≠ [] → delimited rest = true)
    (hn : numbered 0 lines = true) (hs : separated lines = true)
    (hk : lines.length < SIZE_MOD) :
    ∃ fuel, rest.length ≤ fuel + 1 ∧
      read_program uninit (IStream.ofChars (lines_text lines ++ rest)) =
        read_loop uninit (fuel + 1) (IStream.ofChars rest) lines.length
          (lines.map Line.command) := by
  have hle := lines_length_le_text lines 0 hn
  have hso : stream_at rest = IStream.ofChars rest := by
    cases rest with
    | nil => exact absurd rfl hrest
    | cons c t => rfl
  have h0 : IStream.ofChars (lines_text lines ++ rest) =
      stream_at (lines_text lines ++ rest) := by
    cases lines with
    | nil => simpa [lines_text] using hso.symm
    | cons l ls => exact ofChars_lines (l :: ls) rest 0 hn (List.cons_ne_nil l ls)
  refine ⟨(lines_text lines ++ rest).length - lines.length, ?_, ?_⟩
  · simp only [List.length_append]
    omega
  · unfold read_program
    have hf : (IStream.ofChars (lines_text lines ++ rest)).buf.length + 1 =
        ((lines_text lines ++ rest).length - lines.length + 1) + lines.length := by
      simp only [IStream.ofChars, List.length_append]
      omega
    rw [hf, h0, read_loop_lines uninit _ rest lines 0 [] hr hn hs (by omega), hso]
    simp

/-- C14, as stated, fails: in `0 PUSH 5+1 READ` the name PUSH is followed by the token
`5+1`, which is not a decimal integer, and the load succeeds: the operand extraction stops
after `5` and the next line-number extraction reads `+1` as 1. -/
theorem C14_operand_token_counterexample :
    read_program (fun _ => 0) (IStream.ofChars "0 PUSH 5+1 READ".toList) =
      .loaded [⟨0, .PUSH, some 5⟩, ⟨1, .READ, none⟩] := by
  decide!

/-- C14, amended: after k well-formed records and a record start `k NAME` with NAME one
of PUSH, POP, ROT, a token that is not a decimal integer of the range -2^31 .. 2^31-1
makes `read_program` fail, with one exception. It throws `overflow_error` when the token
does not begin with an optionally signed decimal integer and when it begins with one
outside the range. When the token begins with an integer inside the range and goes on
with other characters, the operand is that integer and the next line-number extraction
starts at those characters: it throws "Wrong line number m expected k+1" for the value m
it reads there (0 when the characters are not a sign followed by digits, as in `5x`,
`5.5`, `1e3`), and only when they are a sign and digits that read as k + 1, as in `5+1`
on line 0, it does not throw. A well-formed text, whose operands are decimal integers
inside the range, is loaded with each command's operand equal to the integer written. -/
theorem C14_operand_is_parsed_or_rejected (uninit : Nat → Nat) (lines all_lines : List Line)
    (lead number gap : List Char) (instr : instruction)
    (hn : numbered 0 lines = true) (hs : separated lines = true)
    (hk : lines.length + 1 < SIZE_MOD)
    (hf : follows lines lead = true)
    (hst : line_start lines.length lead number = true)
    (hg : (!gap.isEmpty && all_space gap) = true)
    (hi : value_instructions instr = true)
    (hne : all_lines ≠ []) (hn2 : numbered 0 all_lines = true)
    (hs2 : separated all_lines = true) (hk2 : all_lines.length < SIZE_MOD) :
    (∀ (gap2 t : List Char) (c : Char), (!gap2.isEmpty && all_space gap2) = true →
        isspace c = false → starts_number (c :: t) = false →
        read_program uninit (IStream.ofChars (lines_text lines ++ (lead ++ (number ++ (gap ++
          ((instruction_name instr).toList ++ (gap2 ++ c :: t))))))) =
          .thrown (.overflow_error "Value too high")) ∧
      (∀ (o : Operand) (r3 : List Char), o.out_of_range = true → ends_number r3 = true →
        read_program uninit (IStream.ofChars (lines_text lines ++ (lead ++ (number ++ (gap ++
          ((instruction_name instr).toList ++ (o.gap ++ (o.token ++ r3)))))))) =
          .thrown (.overflow_error "Value too high")) ∧
      (∀ (o : Operand) (c : Char) (t : List Char), o.well_formed = true →
        isdigit c = false → isspace c = false →
        line_number_read (c :: t) ≠ lines.length + 1 →
        read_program uninit (IStream.ofChars (lines_text lines ++ (lead ++ (number ++ (gap ++
          ((instruction_name instr).toList ++ (o.gap ++ (o.token ++ c :: t)))))))) =
          .thrown (.runtime_error ("Wrong line number " ++
            toString (line_number_read (c :: t)) ++ " expected " ++
            toString (lines.length + 1)))) ∧
      (∀ (c : Char) (t : List Char), starts_number (c :: t) = false →
        line_number_read (c :: t) = 0 ∧ line_number_read (c :: t) ≠ lines.length + 1) ∧
      read_program uninit (IStream.ofChars (lines_text all_lines)) =
        .loaded (all_lines.map Line.command) ∧
      (∀ (i : Nat) (l : Line) (o : Operand), all_lines[i]? = some l → l.operand = some o →
        -(2 ^ 31) ≤ o.value ∧ o.value ≤ 2 ^ 31 - 1 ∧
          ∃ c, (all_lines.map Line.command)[i]? = some c ∧ c.value = some o.value) := by
  obtain ⟨hl, hnn, _, _⟩ := line_start_spec _ lead number hst
  have hk1 : lines.length < SIZE_MOD := by omega
  refine ⟨?_, ?_, ?_, ?_, read_program_lines uninit all_lines hne hn2 hs2 hk2, ?_⟩
  · intro gap2 t c hg2 hc hnum
    simp only [Bool.and_eq_true, Bool.not_eq_true'] at hg2
    obtain ⟨fuel, h⟩ := read_program_after_lines uninit lines
      (lead ++ (number ++ (gap ++ ((instruction_name instr).toList ++ (gap2 ++ c :: t)))))
      (start_ne_nil lead number _ hnn) (follows_delimited lines lead _ hf hl) hn hs hk1
    rw [h]
    exact read_loop_bad_operand uninit fuel _ _ lead number gap (gap2 ++ c :: t) instr hk1
      hst hg hi (by simp) (delimited_of_space gap2 _ hg2.1 hg2.2)
      (read_value_not_number gap2 t c hg2.2 hc hnum)
  · intro o r3 ho he
    have ho2 := ho
    simp only [Operand.out_of_range, Bool.and_eq_true, Bool.not_eq_true'] at ho2
    have hone : o.gap ≠ [] := by
      intro e
      rw [e] at ho2
      simp at ho2
    obtain ⟨fuel, h⟩ := read_program_after_lines uninit lines
      (lead ++ (number ++ (gap ++ ((instruction_name instr).toList ++
        (o.gap ++ (o.token ++ r3))))))
      (start_ne_nil lead number _ hnn) (follows_delimited lines lead _ hf hl) hn hs hk1
    rw [h]
    exact read_loop_bad_operand uninit fuel _ _ lead number gap (o.gap ++ (o.token ++ r3))
      instr hk1 hst hg hi (by simp [hone])
      (delimited_of_space o.gap _ ho2.1.1.1.1 ho2.1.1.1.2)
      (read_value_out_of_range o r3 ho he)
  · intro o c t ho hcd hcs hread
    obtain ⟨fuel, hb, h⟩ := read_program_after_lines_bound uninit lines
      (lead ++ (number ++ (gap ++ ((instruction_name instr).toList ++
        (o.gap ++ (o.token ++ c :: t))))))
      (start_ne_nil lead number _ hnn) (follows_delimited lines lead _ hf hl) hn hs hk1
    have hlen : 2 ≤ (lead ++ (number ++ (gap ++ ((instruction_name instr).toList ++
        (o.gap ++ (o.token ++ c :: t)))))).length := by
      have h1 : 1 ≤ number.length := by
        cases number with
        | nil => exact absurd rfl hnn
        | cons _ _ => simp
      simp only [List.length_append, List.length_cons]
      omega
    obtain ⟨f2, rfl⟩ : ∃ f2, fuel = f2 + 1 := ⟨fuel - 1, by omega⟩
    have hmod : (lines.length + 1) % SIZE_MOD = lines.length + 1 := Nat.mod_eq_of_lt hk
    rw [h, read_loop_operand_record uninit (f2 + 1) _ _ lead number gap (c :: t) instr o hk1
      hst hg hi ho (by simp [ends_number, hcd]), hmod, stream_at_cons]
    exact read_loop_next_number_wrong uninit f2 _ _ c t hcs hread
  · intro c t hnum
    have h0 := line_number_read_no_number (c :: t) hnum
    exact ⟨h0, by rw [h0]; omega⟩
  · intro i l o hli hlo
    have hw := numbered_getElem all_lines 0 i l hn2 hli
    obtain ⟨h1, h2⟩ := operand_range l _ o hw hlo
    refine ⟨h1, h2, l.command, ?_, ?_⟩
    · simp [List.getElem?_map, hli]
    · simp [Line.command, hlo]

/-- C14 at concrete texts: `0 PUSH x`, `0 PUSH 2147483648`, `0 PUSH 5x READ`, and
`0 PUSH 10`, `1 SUB`. -/
theorem C14_operand_is_parsed_or_rejected_witness :
    read_program (fun _ => 0) (IStream.ofChars "0 PUSH x".toList) =
        .thrown (.overflow_error "Value too high") ∧
      read_program (fun _ => 0) (IStream.ofChars "0 PUSH 2147483648".toList) =
        .thrown (.overflow_error "Value too high") ∧
      read_program (fun _ => 0) (IStream.ofChars "0 PUSH 5x READ".toList) =
        .thrown (.runtime_error ("Wrong line number " ++
          toString (line_number_read "x READ".toList) ++ " expected " ++
          toString (([] : List Line).length + 1))) ∧
      line_number_read "x READ".toList = 0 ∧
      read_program (fun _ => 0) (IStream.ofChars (lines_text sample_lines)) =
        .loaded (sample_lines.map Line.command) ∧
      (-(2 ^ 31) ≤ (10 : Int) ∧ (10 : Int) ≤ 2 ^ 31 - 1 ∧
        ∃ c, (sample_lines.map Line.command)[0]? = some c ∧ c.value = some 10) :=
  have h := C14_operand_is_parsed_or_rejected (fun _ => 0) [] sample_lines [] "0".toList
    " ".toList .PUSH (by decide) (by decide) (by simp [SIZE_MOD]) (by decide) (by decide)
    (by decide) (by decide) (by decide) (by decide) (by decide)
    (by simp [sample_lines, SIZE_MOD])
  ⟨h.1 " ".toList [] 'x' (by decide) (by decide) (by decide),
    h.2.1 ⟨" ".toList, false, "2147483648".toList⟩ [] (by decide) (by decide),
    h.2.2.1 ⟨" ".toList, false, "5".toList⟩ 'x' " READ".toList (by decide) (by decide)
      (by decide) (by decide),
    (h.2.2.2.1 'x' " READ".toList (by decide)).1,
    h.2.2.2.2.1,
    h.2.2.2.2.2 0 ⟨[], "0".toList, " ".toList, .PUSH, some ⟨" ".toList, false, "10".toList⟩⟩
      ⟨" ".toList, false, "10".toList⟩ (by decide) rfl⟩

/-! ## C15: writing a loaded program back and loading it again -/

theorem decimal_fold (cs : List Char) (a : Nat) :
    cs.foldl (fun acc c => 10 * acc + (c.toNat - '0'.toNat)) a =
      a * 10 ^ cs.length + decimal_value cs := by
  induction cs generalizing a with
  | nil => simp [decimal_value]
  | cons c t ih =>
    simp only [List.foldl_cons, decimal_value, List.length_cons]
    rw [ih, ih (10 * 0 + (c.toNat - '0'.toNat))]
    ring

theorem decimal_value_cons (c : Char) (cs : List Char) :
    decimal_value (c :: cs) = (c.toNat - '0'.toNat) * 10 ^ cs.length + decimal_value cs := by
  have h := decimal_fold cs (10 * 0 + (c.toNat - '0'.toNat))
  simp only [decimal_value, List.foldl_cons]
  rw [h]
  simp [decimal_value]

theorem digitChar_spec : ∀ d, d < 10 →
    isdigit (Nat.digitChar d) = true ∧ (Nat.digitChar d).toNat - '0'.toNat = d := by
  decide

theorem toDigitsCore_spec (fuel n : Nat) (acc : List Char) (hf : n < fuel)
    (hacc : all_digits acc = true) :
    all_digits (Nat.toDigitsCore 10 fuel n acc) = true ∧
      Nat.toDigitsCore 10 fuel n acc ≠ [] ∧
      decimal_value (Nat.toDigitsCore 10 fuel n acc) =
        n * 10 ^ acc.length + decimal_value acc := by
  induction fuel generalizing n acc with
  | zero => omega
  | succ f ih =>
    obtain ⟨hd1, hd2⟩ := digitChar_spec (n % 10) (Nat.mod_lt n (by norm_num))
    have hacc2 : all_digits (Nat.digitChar (n % 10) :: acc) = true := by
      simp only [all_digits, List.all_cons, Bool.and_eq_true]
      exact ⟨hd1, hacc⟩
    have hval : decimal_value (Nat.digitChar (n % 10) :: acc) =
        (n % 10) * 10 ^ acc.length + decimal_value acc := by
      rw [decimal_value_cons, hd2]
    simp only [Nat.toDigitsCore]
    by_cases h0 : n / 10 = 0
    · simp only [h0, if_true]
      refine ⟨hacc2, by simp, ?_⟩
      rw [hval]
      have : n % 10 = n := Nat.mod_eq_of_lt (by omega)
      rw [this]
    · simp only [h0, if_false]
      have hlt : n / 10 < f := by omega
      obtain ⟨h1, h2, h3⟩ := ih (n / 10) (Nat.digitChar (n % 10) :: acc) hlt hacc2
      refine ⟨h1, h2, ?_⟩
      rw [h3, hval, List.length_cons]
      have hn : n = 10 * (n / 10) + n % 10 := (Nat.div_add_mod n 10).symm
      conv_rhs => rw [hn]
      ring

theorem nat_text_spec (n : Nat) :
    all_digits (toString n).toList = true ∧ (toString n).toList ≠ [] ∧
      decimal_value (toString n).toList = n := by
  have h := toDigitsCore_spec (n + 1) n [] (by omega) rfl
  have e : (toString n).toList = Nat.toDigitsCore 10 (n + 1) n [] := rfl
  rw [e]
  refine ⟨h.1, h.2.1, ?_⟩
  rw [h.2.2]
  simp [decimal_value]

theorem int_text (v : Int) :
    (toString v).toList = (operand_of v).token := by
  cases v with
  | ofNat m =>
    have h : ¬ ((Int.ofNat m) < 0) := by
      simp
    simp only [operand_of, Operand.token, h, decide_False, Bool.false_eq_true, if_false,
      List.nil_append]
    rfl
  | negSucc m =>
    have h : (Int.negSucc m) < 0 := Int.negSucc_lt_zero m
    simp only [operand_of, Operand.token, h, decide_True, if_true]
    show ("-" ++ Nat.repr (m + 1)).toList = _
    simp only [String.toList, String.data_append]
    rfl

theorem operand_of_value (v : Int) : (operand_of v).value = v := by
  have hd := (nat_text_spec v.natAbs).2.2
  simp only [Operand.value, operand_of, hd]
  by_cases h : v < 0
  · simp only [h, decide_True, if_true]
    omega
  · simp only [h, decide_False, Bool.false_eq_true, if_false]
    omega

theorem operand_of_well_formed (v : Int) (hlo : -(2 ^ 31) ≤ v) (hhi : v ≤ 2 ^ 31 - 1) :
    (operand_of v).well_formed = true := by
  have hv := operand_of_value v
  obtain ⟨h1, h2, _⟩ := nat_text_spec v.natAbs
  have h3 : ((toString v.natAbs).toList).isEmpty = false := by
    cases h : (toString v.natAbs).toList with
    | nil => exact absurd h h2
    | cons _ _ => rfl
  simp only [Operand.well_formed, hv, Bool.and_eq_true, Bool.not_eq_true', decide_eq_true_eq]
  refine ⟨⟨⟨⟨⟨rfl, rfl⟩, ?_⟩, ?_⟩, hlo⟩, hhi⟩
  · exact h3
  · exact h1


theorem line_of_well_formed (lead : List Char) (c : command) (k : Nat)
    (hl : all_space lead = true) (hnum : c.line_number = k)
    (hval : c.value.isSome = value_instructions c.instruction)
    (hr : ∀ x, c.value = some x → -(2 ^ 31) ≤ x ∧ x ≤ 2 ^ 31 - 1) :
    (line_of lead c).well_formed k = true := by
  obtain ⟨h1, h2, h3⟩ := nat_text_spec c.line_number
  have h4 : ((toString c.line_number).toList).isEmpty = false := by
    cases h : (toString c.line_number).toList with
    | nil => exact absurd h h2
    | cons _ _ => rfl
  simp only [Line.well_formed, line_of, Bool.and_eq_true, Bool.not_eq_true',
    decide_eq_true_eq]
  refine ⟨⟨⟨⟨⟨⟨hl, h4⟩, h1⟩, by rw [h3, hnum]⟩, rfl⟩, rfl⟩, ?_⟩
  cases hv : c.value with
  | none =>
    rw [hv] at hval
    simp only [Option.map_none', Bool.not_eq_true']
    simpa using hval.symm
  | some x =>
    rw [hv] at hval
    obtain ⟨hlo, hhi⟩ := hr x hv
    simp only [Option.map_some', Bool.and_eq_true]
    exact ⟨by simpa using hval.symm, operand_of_well_formed x hlo hhi⟩

theorem line_of_command (lead : List Char) (c : command) : (line_of lead c).command = c := by
  obtain ⟨n, i, v⟩ := c
  simp only [Line.command, line_of, (nat_text_spec n).2.2, command.mk.injEq, true_and]
  cases v with
  | none => rfl
  | some x => simp [operand_of_value]

theorem line_of_text (lead : List Char) (c : command) :
    (line_of lead c).text = lead ++ command_text c := by
  obtain ⟨n, i, v⟩ := c
  cases v with
  | none => simp [Line.text, line_of, command_text, operand_text]
  | some x =>
    simp only [Line.text, line_of, command_text, operand_text, Option.map_some', int_text]
    rfl

theorem following_lines_text (cs : List command) :
    lines_text (cs.map (line_of "\n".toList)) = following_text cs := by
  induction cs with
  | nil => rfl
  | cons c t ih =>
    simp only [List.map_cons, lines_text, following_text, line_of_text, ih,
      List.append_assoc]

theorem lines_of_text (p : List command) : lines_text (lines_of p) = program_text p := by
  cases p with
  | nil => rfl
  | cons c cs =>
    simp only [lines_of, lines_text, program_text, line_of_text, following_lines_text,
      List.nil_append]

theorem lines_of_commands (p : List command) : (lines_of p).map Line.command = p := by
  cases p with
  | nil => rfl
  | cons c cs =>
    simp only [lines_of, List.map_cons, line_of_command, List.map_map, List.cons.injEq,
      true_and]
    have : (Line.command ∘ line_of "\n".toList) = id := by
      funext c2
      exact line_of_command _ c2
    rw [this, List.map_id]

theorem lines_of_separated (p : List command) : separated (lines_of p) = true := by
  cases p with
  | nil => rfl
  | cons c cs =>
    simp only [lines_of, separated]
    rw [List.all_eq_true]
    intro x hx
    obtain ⟨c2, _, hc2⟩ := List.mem_map.mp hx
    rw [← hc2]
    rfl

theorem following_numbered (cs : List command) (k : Nat)
    (hpos : ∀ (i : Nat) (c : command), cs[i]? = some c → c.line_number = k + i)
    (hval : ∀ c ∈ cs, c.value.isSome = value_instructions c.instruction ∧
      ∀ x, c.value = some x → -(2 ^ 31) ≤ x ∧ x ≤ 2 ^ 31 - 1) :
    numbered k (cs.map (line_of "\n".toList)) = true := by
  induction cs generalizing k with
  | nil => rfl
  | cons c t ih =>
    simp only [List.map_cons, numbered, Bool.and_eq_true]
    constructor
    · exact line_of_well_formed _ c k (by decide) (by simpa using hpos 0 c (List.getElem?_cons_zero))
        (hval c (List.mem_cons_self c t)).1 (hval c (List.mem_cons_self c t)).2
    · apply ih (k + 1)
      · intro i c2 hc2
        have := hpos (i + 1) c2 (by simpa using hc2)
        omega
      · intro c2 hc2
        exact hval c2 (List.mem_cons_of_mem c hc2)

theorem lines_of_numbered (p : List command)
    (hpos : ∀ (i : Nat) (c : command), p[i]? = some c → c.line_number = i)
    (hval : ∀ c ∈ p, c.value.isSome = value_instructions c.instruction ∧
      ∀ x, c.value = some x → -(2 ^ 31) ≤ x ∧ x ≤ 2 ^ 31 - 1) :
    numbered 0 (lines_of p) = true := by
  cases p with
  | nil => rfl
  | cons c cs =>
    simp only [lines_of, numbered, Bool.and_eq_true]
    constructor
    · exact line_of_well_formed _ c 0 rfl (hpos 0 c (List.getElem?_cons_zero))
        (hval c (List.mem_cons_self c cs)).1 (hval c (List.mem_cons_self c cs)).2
    · apply following_numbered cs (0 + 1)
      · intro i c2 hc2
        have := hpos (i + 1) c2 (by simpa using hc2)
        omega
      · intro c2 hc2
        exact hval c2 (List.mem_cons_of_mem c hc2)

theorem lines_of_length (p : List command) : (lines_of p).length = p.length := by
  cases p with
  | nil => rfl
  | cons c cs => simp [lines_of]

/-- What a successful load of a fresh stream returns: at least one command, at most one
per iteration, each with its position as line number and with an `int32_t` operand
exactly when its instruction takes one. -/
theorem loaded_shape (uninit : Nat → Nat) (text : List Char) (cmds : List command)
    (hlen : text.length + 1 < SIZE_MOD)
    (h : read_program uninit (IStream.ofChars text) = .loaded cmds) :
    cmds ≠ [] ∧ cmds.length < SIZE_MOD ∧
      (∀ (i : Nat) (c : command), cmds[i]? = some c → c.line_number = i) ∧
      (∀ c ∈ cmds, c.value.isSome = value_instructions c.instruction ∧
        ∀ x, c.value = some x → -(2 ^ 31) ≤ x ∧ x ≤ 2 ^ 31 - 1) := by
  have key := read_loop_invariant uninit
    (fun fuel s k out => (s.good = true ∨ out ≠ []) ∧ k = out.length ∧
      out.length + fuel < SIZE_MOD ∧
      (∀ (i : Nat) (c : command), out[i]? = some c → c.line_number = i) ∧
      (∀ c ∈ out, c.value.isSome = value_instructions c.instruction ∧
        ∀ x, c.value = some x → -(2 ^ 31) ≤ x ∧ x ≤ 2 ^ 31 - 1))
    (by
      intro fuel s s1 k out instr v _ hP hv hrange
      obtain ⟨_, hk, hb, hall, hvals⟩ := hP
      refine ⟨Or.inr (by simp), ?_, ?_, ?_, ?_⟩
      · rw [List.length_append, List.length_singleton, hk]
        exact Nat.mod_eq_of_lt (by omega)
      · rw [List.length_append, List.length_singleton]
        omega
      · intro i c hc
        rcases Nat.lt_or_ge i out.length with hi | hi
        · rw [List.getElem?_append_left hi] at hc
          exact hall i c hc
        · rw [List.getElem?_append_right hi] at hc
          rcases Nat.eq_zero_or_pos (i - out.length) with h0 | h0
          · rw [h0] at hc
            simp only [List.getElem?_cons_zero, Option.some.injEq] at hc
            subst hc
            simp only
            omega
          · have hnone : ([({ line_number := k, instruction := instr, value := v } :
                command)])[i - out.length]? = none :=
              List.getElem?_eq_none (by simp only [List.length_singleton]; omega)
            rw [hnone] at hc
            cases hc
      · intro c hc
        rcases List.mem_append.mp hc with h1 | h1
        · exact hvals c h1
        · simp only [List.mem_singleton] at h1
          subst h1
          exact ⟨hv, hrange⟩)
    ((IStream.ofChars text).buf.length + 1) (IStream.ofChars text) 0 [] cmds h
    ⟨Or.inl rfl, rfl, by simpa [IStream.ofChars] using hlen,
      by intro i c hc; simp at hc, by intro c hc; simp at hc⟩
  obtain ⟨f1, s1, k1, hg, hne, _, hb, hall, hvals⟩ := key
  refine ⟨?_, by omega, hall, hvals⟩
  rcases hne with h1 | h1
  · rw [hg] at h1
    cases h1
  · exact h1


theorem instructions_at_instruction_name (i : instruction) :
    instructions_at (instruction_name i) = some i := by
  cases i <;> decide

theorem following_text_terminated (cs : List command) :
    following_text cs ++ "\n".toList = "\n".toList ++ terminated_text cs := by
  induction cs with
  | nil => rfl
  | cons c t ih =>
    simp only [following_text, terminated_text, List.append_assoc, ih]

theorem terminated_text_eq (p : List command) (hne : p ≠ []) :
    terminated_text p = program_text p ++ "\n".toList := by
  cases p with
  | nil => exact absurd rfl hne
  | cons c cs =>
    simp only [terminated_text, program_text, List.append_assoc, following_text_terminated]

/-- C15 on the code: for every program P returned by a successful `read_program` on a fresh
stream (shorter than the range of `size_t`), P written as line number, name
`instruction_name[instruction]` and operand in decimal, separated by blanks, one command
per line, is loaded again as P when the text ends right after the last token, and is
rejected when every line, the last one included, is ended by a line feed: the loop then
starts one more iteration whose line-number extraction fails. The name table is inverted
by `instructions.at`, so the thirteen names are pairwise distinct. -/
theorem C15_written_program_reloads (uninit uninit2 : Nat → Nat) (text : List Char)
    (p : List command)
    (hlen : text.length + 1 < SIZE_MOD)
    (h : read_program uninit (IStream.ofChars text) = .loaded p) :
    read_program uninit2 (IStream.ofChars (program_text p)) = .loaded p ∧
      read_program uninit2 (IStream.ofChars (terminated_text p)) =
        .thrown (.runtime_error
          (if uninit2 p.length = p.length then
             "Unknown instruction at line " ++ toString p.length
           else "Wrong line number " ++ toString (uninit2 p.length) ++ " expected " ++
             toString p.length)) ∧
      (∀ i, instructions_at (instruction_name i) = some i) ∧
      (∀ i j, instruction_name i = instruction_name j → i = j) := by
  obtain ⟨hne, hsz, hpos, hval⟩ := loaded_shape uninit text p hlen h
  have hlne : lines_of p ≠ [] := by
    intro e
    have := lines_of_length p
    rw [e] at this
    exact hne (List.length_eq_zero.mp this.symm)
  refine ⟨?_, ?_, instructions_at_instruction_name, ?_⟩
  · have hl := read_program_lines uninit2 (lines_of p) hlne
      (lines_of_numbered p hpos hval) (lines_of_separated p)
      (by rw [lines_of_length]; exact hsz)
    rw [lines_of_text, lines_of_commands] at hl
    exact hl
  · have ht := read_program_trailing_space uninit2 (lines_of p) "\n".toList (by decide)
      (by decide) (lines_of_numbered p hpos hval) (lines_of_separated p)
      (by rw [lines_of_length]; exact hsz)
    rw [lines_of_text, lines_of_length, ← terminated_text_eq p hne] at ht
    exact ht
  · intro i j hij
    have h1 := instructions_at_instruction_name i
    rw [hij, instructions_at_instruction_name j] at h1
    cases h1
    rfl

/-- C15 at the failing input: `0 PUSH 10`, `1 SUB` is loaded; written back without a line
feed after the last line it is loaded again, written back with one it is rejected. -/
theorem C15_written_program_reloads_witness :
    read_program (fun _ => 0) (IStream.ofChars (lines_text sample_lines)) =
        .loaded (sample_lines.map Line.command) ∧
      read_program (fun _ => 7)
          (IStream.ofChars (program_text (sample_lines.map Line.command))) =
        .loaded (sample_lines.map Line.command) ∧
      terminated_text (sample_lines.map Line.command) = "0 PUSH 10\n1 SUB\n".toList ∧
      ∃ e, read_program (fun _ => 7)
          (IStream.ofChars (terminated_text (sample_lines.map Line.command))) = .thrown e :=
  have h := C15_written_program_reloads (fun _ => 0) (fun _ => 7) (lines_text sample_lines)
    (sample_lines.map Line.command) (by simp [SIZE_MOD]; decide)
    (read_program_lines (fun _ => 0) sample_lines (by decide) (by decide) (by decide)
      (by simp [sample_lines, SIZE_MOD]))
  ⟨read_program_lines (fun _ => 0) sample_lines (by decide) (by decide) (by decide)
      (by simp [sample_lines, SIZE_MOD]),
    h.1, by decide, ⟨_, h.2.1⟩⟩

/-! ## The bound of the loader loop is never used up -/

theorem dropWhile_length_le (p : Char → Bool) (l : List Char) :
    (l.dropWhile p).length ≤ l.length := by
  induction l with
  | nil => simp
  | cons a t ih =>
    simp only [List.dropWhile]
    split
    · simp only [List.length_cons]
      omega
    · simp

theorem sentry_buf_le (s : IStream) : (sentry s).2.buf.length ≤ s.buf.length := by
  unfold sentry
  split
  · have h := dropWhile_length_le isspace s.buf
    split
    · simp
    · rename_i c rest heq
      rw [heq] at h
      simpa using h
  · simp

theorem num_field_le (cs : List Char) : (num_field cs).2.2.length ≤ cs.length := by
  unfold num_field
  split
  · rename_i t
    have h := dropWhile_length_le isdigit t
    simp only [List.length_cons]
    omega
  · rename_i t
    have h := dropWhile_length_le isdigit t
    simp only [List.length_cons]
    omega
  · exact dropWhile_length_le isdigit cs

theorem extract_size_t_le (s : IStream) (old : Nat) :
    (extract_size_t s old).2.buf.length ≤ s.buf.length := by
  have h1 := sentry_buf_le s
  unfold extract_size_t
  generalize sentry s = r at h1
  obtain ⟨b, s1⟩ := r
  cases b with
  | false => exact h1
  | true =>
    simp only at h1 ⊢
    have h2 := num_field_le s1.buf
    generalize num_field s1.buf = nf at h2
    obtain ⟨neg, ds, rest⟩ := nf
    simp only at h2 ⊢
    split
    · simp only
      omega
    · split
      · simp only
        omega
      · simp only
        omega

theorem read_value_le (s : IStream) : (read_value s).2.buf.length ≤ s.buf.length := by
  have h1 := sentry_buf_le s
  unfold read_value extract_int32
  generalize sentry s = r at h1
  obtain ⟨b, s1⟩ := r
  cases b with
  | false =>
    simp only at h1 ⊢
    split <;> exact h1
  | true =>
    simp only at h1 ⊢
    have h2 := num_field_le s1.buf
    generalize num_field s1.buf = nf at h2
    obtain ⟨neg, ds, rest⟩ := nf
    simp only at h2 ⊢
    (repeat' split) <;> (simp only; omega)

theorem extract_string_consumes (s : IStream) :
    (extract_string s []).1.length + (extract_string s []).2.buf.length ≤ s.buf.length := by
  have h1 := sentry_buf_le s
  unfold extract_string
  generalize sentry s = r at h1
  obtain ⟨b, s1⟩ := r
  cases b with
  | false => simpa using h1
  | true =>
    simp only at h1 ⊢
    have h2 := congrArg List.length
      (List.takeWhile_append_dropWhile (fun c => !isspace c) s1.buf)
    rw [List.length_append] at h2
    omega

/-- The loop of `read_program` ends within the bound it is given: every iteration that
does not throw consumes at least the characters of an instruction name. -/
theorem read_loop_finishes (uninit : Nat → Nat) (fuel : Nat) (s : IStream) (k : Nat)
    (out : List command) (hf : s.buf.length < fuel) :
    read_loop uninit fuel s k out ≠ .unfinished := by
  induction fuel generalizing s k out with
  | zero => omega
  | succ n ih =>
    rw [read_loop.eq_def]
    by_cases hg : s.good = true
    · simp only [hg, if_true]
      have h1 := extract_size_t_le s (uninit k)
      generalize extract_size_t s (uninit k) = r1 at h1
      obtain ⟨c_line_number, in1⟩ := r1
      simp only at h1 ⊢
      split
      · intro h
        cases h
      · have h2 := extract_string_consumes in1
        generalize extract_string in1 [] = r2 at h2
        obtain ⟨name, in2⟩ := r2
        simp only at h2 ⊢
        split
        · intro h
          cases h
        · rename_i instr hi
          have hname : 1 ≤ name.length := by
            cases name with
            | nil =>
              rw [instructions_at_nil] at hi
              cases hi
            | cons c t => simp
          split
          · have h3 := read_value_le in2
            generalize read_value in2 = r3 at h3
            obtain ⟨res, in3⟩ := r3
            cases res with
            | error e =>
              intro h
              cases h
            | ok v =>
              simp only at h3 ⊢
              exact ih in3 _ _ (by omega)
          · exact ih in2 _ _ (by omega)
    · simp only [hg, Bool.false_eq_true, if_false]
      split <;> (intro h; cases h)

/-- The function `read_program` always returns a program or throws. -/
theorem read_program_finishes (uninit : Nat → Nat) (input : IStream) :
    read_program uninit input ≠ .unfinished :=
  read_loop_finishes uninit _ input 0 [] (Nat.lt_succ_self _)

end Quarks
